import Mathlib

/-!
Package restfulspec: building OpenAPI paths from go-restful routes.

A shallow embedding of `build_path.go` (package `restfulspec`) and the properties of
its path normaliser and path/operation builder.

Modelling conventions.

* A Go `string` is a Lean `String`. The source only ever cuts strings at the one-byte
  ASCII separators `/`, `:` and `{`, so cutting at characters and cutting at bytes
  agree on every UTF-8 text.
* A Go pointer that may be nil (`*spec.Operation`, `*spec.Schema`, `*spec.Response`)
  and an `interface{}` that may be nil are `Option`s.
* A Go map that is only written and read by key (`spec.Paths.Paths`,
  `StatusCodeResponses`) is a lookup function into `Option`; the empty map answers
  `none` everywhere and a store is `Function.update`.
* A Go map that is read by key only (`Route.Metadata`) is an association list read
  with `List.lookup`; a nil map is `none`.
* A Go map that is ranged over (`Route.ResponseErrors`) is the list of its entries in
  the order the `range` statement enumerates them. Go leaves that order open, so
  the properties are stated for every such list; the keys of a map are distinct.
* An indexing expression that can go out of range yields `none`, and so does every
  function that evaluates one.
* `spec.MustCreateRef` panics on a reference text that `net/url` does not parse. The
  two functions that call it are given twice: `buildParameter` and `buildResponse`
  are the values they return when the reference is created, and `buildParameter.run`
  and `buildResponse.run` are the calls with that panic, which is `none`.
-/

namespace Restfulspec

/-! ## The parts of package `strings` that the source calls -/

/-- The pieces of a character list between the occurrences of a separator:
`strings.Split` for a separator of one character. The result always has one more
piece than there are separators. -/
def splitChars (sep : Char) : List Char → List (List Char)
  | [] => [[]]
  | c :: cs =>
    if c = sep then [] :: splitChars sep cs
    else
      match splitChars sep cs with
      | [] => [[c]]
      | h :: t => (c :: h) :: t

/-- Go `strings.Split(s, sep)` where `sep` is a string of one character. -/
def Split (s : String) (sep : Char) : List String :=
  (splitChars sep s.data).map String.mk

/-- Go `strings.HasPrefix(s, p)` where `p` is a string of one character. -/
def HasPrefix (s : String) (c : Char) : Bool :=
  s.data.head? == some c

/-- Go `strings.Contains(s, sub)` where `sub` is a string of one character. -/
def Contains (s : String) (c : Char) : Bool :=
  s.data.contains c

/-! ## Types of `github.com/emicklei/go-restful` read by the source -/

namespace restful

/-- The constant `restful.BodyParameterKind` (the kinds are `iota` constants:
path 0, query 1, body 2, header 3, form 4). -/
def BodyParameterKind : Int := 2

/-- The record `restful.ParameterData`, with the fields the source reads. -/
structure ParameterData where
  Name : String
  Description : String
  DataType : String
  DataFormat : String
  Kind : Int
  Required : Bool
  DefaultValue : String
  deriving DecidableEq, Repr

/-- A non-nil `*restful.Parameter`. -/
structure Parameter where
  data : ParameterData
  deriving DecidableEq, Repr

/-- The method `(*Parameter).Data`. -/
def Parameter.Data (p : Parameter) : ParameterData := p.data

/-- The dynamic type of a value held in an `interface{}`, as `reflect.TypeOf`
reports it, identified by its printed form. -/
structure ReflectType where
  text : String
  deriving DecidableEq, Repr

/-- The record `restful.ResponseError`. `Model` is an `interface{}`, of which the
source uses nothing but whether it is nil and, if not, its dynamic type. -/
structure ResponseError where
  Code : Int
  Message : String
  Model : Option ReflectType
  deriving DecidableEq, Repr

/-- A non-nil value stored in a `map[string]interface{}`: either a `[]string`, or a
value of some other dynamic type (named by `dynType`). -/
inductive Any where
  | stringSlice (v : List String)
  | other (dynType : String)
  deriving DecidableEq, Repr

/-- The record `restful.Route`, with the fields the source reads. `Metadata` is
`none` for a nil map; an entry whose value is the nil interface is `(key, none)`. -/
structure Route where
  Method : String
  Path : String
  Operation : String
  Doc : String
  Consumes : List String
  Produces : List String
  Metadata : Option (List (String × Option Any))
  ParameterDocs : List Parameter
  ResponseErrors : List (Int × ResponseError)
  deriving DecidableEq, Repr

/-- A `*restful.WebService`, seen through the two methods the source calls:
`Routes()` and `PathParameters()`. -/
structure WebService where
  Routes : List Route
  PathParameters : List Parameter
  deriving DecidableEq, Repr

end restful

/-! ## Types of `github.com/go-openapi/spec` written by the source -/

namespace spec

/-- A `spec.Ref`, identified by the reference text it was created from. -/
structure Ref where
  text : String
  deriving DecidableEq, Repr

/-- The reference that `spec.MustCreateRef` returns for a reference text, when it
returns. Whether it returns is `spec.MustCreateRef.run`; how the reference prints is
not part of this model. -/
def MustCreateRef (refURI : String) : Ref := ⟨refURI⟩

/-- The record `spec.Schema`, of which the source sets only `Ref`. -/
structure Schema where
  Ref : Ref
  deriving DecidableEq, Repr

/-- The record `spec.Parameter`. `Type_` is the Go field `Type`; `Default` is an
`interface{}` that the source either leaves nil or sets to a string. -/
structure Parameter where
  In : String := ""
  Description : String := ""
  Name : String := ""
  Required : Bool := false
  Schema : Option Schema := none
  Type_ : String := ""
  Default : Option String := none
  Format : String := ""
  deriving DecidableEq, Repr

/-- The record `spec.Response`. -/
structure Response where
  Description : String := ""
  Schema : Option Schema := none
  deriving DecidableEq, Repr

/-- The record `spec.Responses`: the default response and the map from status code
to response. -/
structure Responses where
  Default : Option Response := none
  StatusCodeResponses : Int → Option Response := fun _ => none

/-- The record `spec.Operation`. -/
structure Operation where
  ID : String := ""
  Description : String := ""
  Summary : String := ""
  Consumes : List String := []
  Produces : List String := []
  Tags : List String := []
  Parameters : List Parameter := []
  Responses : Option Responses := none

/-- The constructor `spec.NewOperation`: a fresh operation that carries the id. -/
def NewOperation (id : String) : Operation := { ID := id }

/-- The record `spec.PathItem`: one operation slot per HTTP method. -/
structure PathItem where
  Get : Option Operation := none
  Put : Option Operation := none
  Post : Option Operation := none
  Delete : Option Operation := none
  Options : Option Operation := none
  Head : Option Operation := none
  Patch : Option Operation := none

/-- The record `spec.Paths`: the map from path to path item. -/
structure Paths where
  Paths : String → Option PathItem := fun _ => none

end spec

/-! ## The part of `net/url` that decides whether `spec.MustCreateRef` returns -/

/-- The test `ishex` of `net/url`: a hexadecimal digit. -/
def url.ishex (c : Char) : Bool :=
  if '0' ≤ c ∧ c ≤ '9' then true
  else if 'a' ≤ c ∧ c ≤ 'f' then true
  else if 'A' ≤ c ∧ c ≤ 'F' then true
  else false

/-- The check that `unescape` of `net/url` makes on a fragment before it decodes it:
every `%` is followed by two hexadecimal digits, after which the scan goes on behind
them. -/
def url.wellEscaped : List Char → Bool
  | [] => true
  | c :: rest =>
    if c = '%' then
      match rest with
      | a :: b :: rest2 => url.ishex a && url.ishex b && url.wellEscaped rest2
      | _ => false
    else url.wellEscaped rest

/-- The call `spec.MustCreateRef(refURI)` for a reference text that begins with `#`,
which is the only kind the source passes. `url.Parse` cuts the text at the first
`#`, parses the empty text before it without error and unescapes the fragment behind
it, and `MustCreateRef` panics when that fails; `none` is the panic. A text that
does not begin with `#` is outside this model and gets no reference from it. -/
def spec.MustCreateRef.run (refURI : String) : Option spec.Ref :=
  match refURI.data with
  | '#' :: fragment => if url.wellEscaped fragment then some ⟨refURI⟩ else none
  | _ => none

/-- The functions of package `restfulspec` that `build_path.go` calls and that are
defined in other files of the package: `asParamType` (parameter kind to location
text) and `definitionBuilder{}.keyFrom` (type to definition name). -/
structure Collaborators where
  asParamType : Int → String
  keyFrom : restful.ReflectType → String

/-! ## `build_path.go` -/

/-- KeyOpenAPITags is a Metadata key for a restful Route. -/
def KeyOpenAPITags : String := "openapi.tags"

/-- One turn of the loop of `sanitizePath`: `openapiPath` is the text built so far.
`strings.Split(fragment, ":")[0]` is an indexing expression, `none` when out of
range. -/
def sanitizePath.step (openapiPath fragment : String) : Option String :=
  if fragment = "" then some openapiPath
  else if HasPrefix fragment '{' && Contains fragment ':' then
    match (Split fragment ':')[0]? with
    | some name => some (openapiPath ++ ("/" ++ (name ++ "\x7d")))
    | none => none
  else some (openapiPath ++ ("/" ++ fragment))

/-- The function `sanitizePath`. -/
def sanitizePath (restfulPath : String) : Option String :=
  (Split restfulPath '/').foldlM sanitizePath.step ""

/-- The segments of a template as the specification counts them: the pieces between
the `/` characters, without the empty ones, in their original order. -/
def Normalize.segments (template : String) : List String :=
  (Split template '/').filter (fun segment => segment ≠ "")

/-- The rewriting of one segment as the specification words it: a segment that
begins with an opening brace and contains `:` becomes its text before the first `:`
followed by a closing brace; every other segment is kept. -/
def Normalize.rewrite (segment : String) : String :=
  if segment.data.head? = some '{' ∧ ':' ∈ segment.data then
    String.mk (segment.data.takeWhile (fun ch => ch ≠ ':')) ++ "\x7d"
  else segment

/-- The normaliser as the specification words it: every segment, rewritten, after
a `/`, all concatenated. -/
def Normalize (template : String) : String :=
  String.join ((Normalize.segments template).map (fun segment => "/" ++ Normalize.rewrite segment))

/-- The function `buildResponse`, as the response it returns when `spec.MustCreateRef`
returns. -/
def buildResponse (c : Collaborators) (e : restful.ResponseError) : spec.Response :=
  let r : spec.Response := { Description := e.Message }
  match e.Model with
  | some st =>
    let modelName := c.keyFrom st
    { r with Schema := some { Ref := spec.MustCreateRef ("#/definitions/" ++ modelName) } }
  | none => r

/-- The function `buildResponse` with the panic of `spec.MustCreateRef`. -/
def buildResponse.run (c : Collaborators) (e : restful.ResponseError) :
    Option spec.Response :=
  let r : spec.Response := { Description := e.Message }
  match e.Model with
  | some st =>
    let modelName := c.keyFrom st
    match spec.MustCreateRef.run ("#/definitions/" ++ modelName) with
    | some ref => some { r with Schema := some { Ref := ref } }
    | none => none
  | none => some r

/-- The function `buildParameter`, as the parameter it returns when
`spec.MustCreateRef` returns. -/
def buildParameter (c : Collaborators) (r : restful.Parameter) : spec.Parameter :=
  let param := r.Data
  let p : spec.Parameter :=
    { In := c.asParamType param.Kind
      Description := param.Description
      Name := param.Name
      Required := param.Required }
  if param.Kind = restful.BodyParameterKind then
    { p with Schema := some { Ref := spec.MustCreateRef ("#/definitions/" ++ param.DataType) } }
  else
    { p with Type_ := param.DataType, Default := some param.DefaultValue,
             Format := param.DataFormat }

/-- The function `buildParameter` with the panic of `spec.MustCreateRef`. -/
def buildParameter.run (c : Collaborators) (r : restful.Parameter) : Option spec.Parameter :=
  let param := r.Data
  let p : spec.Parameter :=
    { In := c.asParamType param.Kind
      Description := param.Description
      Name := param.Name
      Required := param.Required }
  if param.Kind = restful.BodyParameterKind then
    match spec.MustCreateRef.run ("#/definitions/" ++ param.DataType) with
    | some ref => some { p with Schema := some { Ref := ref } }
    | none => none
  else
    some { p with Type_ := param.DataType, Default := some param.DefaultValue,
                  Format := param.DataFormat }

/-- One turn of either parameter loop of `buildOperation`:
`o.Parameters = append(o.Parameters, buildParameter(param))`. -/
def buildOperation.addParameter (c : Collaborators) (o : spec.Operation)
    (param : restful.Parameter) : spec.Operation :=
  { o with Parameters := o.Parameters ++ [buildParameter c param] }

/-- One turn of the response loop of `buildOperation`, on the `spec.Responses` that
`o.Responses` points to. -/
def buildOperation.addResponse (c : Collaborators) (props : spec.Responses)
    (kv : Int × restful.ResponseError) : spec.Responses :=
  let r := buildResponse c kv.2
  let props := { props with
    StatusCodeResponses := Function.update props.StatusCodeResponses kv.1 (some r) }
  if 200 = kv.1 then { props with Default := some r } else props

/-- The function `buildOperation`. -/
def buildOperation (c : Collaborators) (ws : restful.WebService) (r : restful.Route) :
    spec.Operation :=
  let o := spec.NewOperation r.Operation
  let o := { o with Description := r.Doc }
  let o :=
    match Split r.Doc '\n' with
    | first :: _ => { o with Summary := first }
    | [] => o
  let o := { o with Consumes := r.Consumes, Produces := r.Produces }
  let o :=
    match r.Metadata with
    | some metadata =>
      match metadata.lookup KeyOpenAPITags with
      | some (some (restful.Any.stringSlice tagList)) => { o with Tags := tagList }
      | _ => o
    | none => o
  let o := ws.PathParameters.foldl (buildOperation.addParameter c) o
  let o := r.ParameterDocs.foldl (buildOperation.addParameter c) o
  let props := r.ResponseErrors.foldl (buildOperation.addResponse c) {}
  { o with Responses := some props }

/-- The function `buildPathItem`. -/
def buildPathItem (c : Collaborators) (ws : restful.WebService) (r : restful.Route)
    (existingPathItem : spec.PathItem) : spec.PathItem :=
  let op := buildOperation c ws r
  if r.Method = "GET" then { existingPathItem with Get := some op }
  else if r.Method = "POST" then { existingPathItem with Post := some op }
  else if r.Method = "PUT" then { existingPathItem with Put := some op }
  else if r.Method = "DELETE" then { existingPathItem with Delete := some op }
  else if r.Method = "PATCH" then { existingPathItem with Patch := some op }
  else if r.Method = "OPTIONS" then { existingPathItem with Options := some op }
  else if r.Method = "HEAD" then { existingPathItem with Head := some op }
  else existingPathItem

/-- One turn of the loop of `BuildPaths`. -/
def BuildPaths.step (c : Collaborators) (ws : restful.WebService) (p : spec.Paths)
    (each : restful.Route) : Option spec.Paths :=
  match sanitizePath each.Path with
  | none => none
  | some path =>
    let existingPathItem : spec.PathItem :=
      match p.Paths path with
      | some item => item
      | none => {}
    some { p with
      Paths := Function.update p.Paths path (some (buildPathItem c ws each existingPathItem)) }

/-- The function `BuildPaths`. -/
def BuildPaths (c : Collaborators) (ws : restful.WebService) : Option spec.Paths :=
  ws.Routes.foldlM (BuildPaths.step c ws) {}

/-! ## Reading a built document -/

/-- The HTTP methods that have an operation slot in a `spec.PathItem`. -/
def recognisedMethods : List String :=
  ["GET", "POST", "PUT", "DELETE", "PATCH", "OPTIONS", "HEAD"]

/-- The operation slot of a path item for a method; no slot for any other text. -/
def spec.PathItem.slot (item : spec.PathItem) (method : String) : Option spec.Operation :=
  if method = "GET" then item.Get
  else if method = "POST" then item.Post
  else if method = "PUT" then item.Put
  else if method = "DELETE" then item.Delete
  else if method = "PATCH" then item.Patch
  else if method = "OPTIONS" then item.Options
  else if method = "HEAD" then item.Head
  else none

/-- The operation stored in a document under a path and a method, if any. -/
def spec.Paths.slotAt (d : spec.Paths) (path method : String) : Option spec.Operation :=
  (d.Paths path).bind (fun item => item.slot method)

/-- The document after one more route, given that the route's path normalises. -/
def nextPaths (c : Collaborators) (ws : restful.WebService) (p : spec.Paths)
    (each : restful.Route) : spec.Paths :=
  { p with
    Paths := Function.update p.Paths (Normalize each.Path)
      (some (buildPathItem c ws each ((p.Paths (Normalize each.Path)).getD {}))) }

/-! ## Sample inputs -/

/-- A sample pair of collaborators, for concrete instances; any pair would do. -/
def sampleCollaborators : Collaborators :=
  { asParamType := fun kind => toString kind, keyFrom := fun st => st.text }

/-- A route with a method, a path and a documentation text, and nothing else. -/
def sampleRoute (method path doc : String) : restful.Route :=
  { Method := method, Path := path, Operation := "", Doc := doc, Consumes := [],
    Produces := [], Metadata := none, ParameterDocs := [], ResponseErrors := [] }

/-- A service with two GET routes whose paths normalise to the same path. -/
def overwriteService : restful.WebService :=
  { Routes := [sampleRoute "GET" "/a/{b:[0-9]+}" "first", sampleRoute "GET" "/a/{b}/" "second"],
    PathParameters := [] }

/-- A service with a GET route and a POST route on the same path. -/
def mergeService : restful.WebService :=
  { Routes := [sampleRoute "GET" "/tests/a/a/b" "get a b test",
      sampleRoute "POST" "/tests/a/a/b" "post a b test"],
    PathParameters := [] }

/-- A body parameter whose payload type is `restfulspec.Sample`. -/
def bodyParameter : restful.Parameter :=
  ⟨{ Name := "body", Description := "", DataType := "restfulspec.Sample", DataFormat := "",
     Kind := restful.BodyParameterKind, Required := true, DefaultValue := "" }⟩

/-- A query parameter `q` of type string with a default value. -/
def queryParameter : restful.Parameter :=
  ⟨{ Name := "q", Description := "value of q", DataType := "string", DataFormat := "",
     Kind := 1, Required := false, DefaultValue := "default-q" }⟩

/-- A POST route that declares responses for the status codes 200 and 500. -/
def postRoute : restful.Route :=
  { sampleRoute "POST" "/tests/a/a/b" "post a b test" with
    ParameterDocs := [bodyParameter]
    ResponseErrors :=
      [(200, { Code := 200, Message := "list of a b tests",
               Model := some ⟨"[]restfulspec.Sample"⟩ }),
       (500, { Code := 500, Message := "internal server error",
               Model := some ⟨"[]restfulspec.Sample"⟩ })] }

/-- A route whose metadata has a list of strings under the tags key. -/
def taggedRoute : restful.Route :=
  { sampleRoute "GET" "/a" "" with
    Metadata := some [("openapi.tags", some (restful.Any.stringSlice ["x", "y"]))] }

/-- A route whose metadata has a single string under the tags key. -/
def mistaggedRoute : restful.Route :=
  { sampleRoute "GET" "/a" "" with
    Metadata := some [("openapi.tags", some (restful.Any.other "string"))] }

/-! ## The path normaliser on character lists -/

/-- The rewriting of one segment, on its characters. -/
def rewriteChars (seg : List Char) : List Char :=
  if seg.head? = some '{' ∧ ':' ∈ seg then seg.takeWhile (fun ch => ch ≠ ':') ++ ['}'] else seg

/-- The normalised path, on characters, from the list of all pieces. -/
def joinChars (pieces : List (List Char)) : List Char :=
  ((pieces.filter (fun seg => seg ≠ [])).map (fun seg => '/' :: rewriteChars seg)).flatten

/-- Every segment after a `/`, all concatenated. -/
def glue (segs : List (List Char)) : List Char :=
  (segs.map (fun seg => '/' :: seg)).flatten

/-- The segments of a normalised path: the non-empty pieces, rewritten. -/
def normalSegments (pieces : List (List Char)) : List (List Char) :=
  (pieces.filter (fun seg => seg ≠ [])).map rewriteChars

/-- No two neighbours are both `/`. -/
def NoDoubleSlash (a b : Char) : Prop := ¬ (a = '/' ∧ b = '/')

/-! ## The parameter kinds and a location table -/

/-- The constant `restful.PathParameterKind`. -/
def restful.PathParameterKind : Int := 0

/-- The constant `restful.QueryParameterKind`. -/
def restful.QueryParameterKind : Int := 1

/-- The constant `restful.HeaderParameterKind`. -/
def restful.HeaderParameterKind : Int := 3

/-- The constant `restful.FormParameterKind`. -/
def restful.FormParameterKind : Int := 4

/-- A location table that names every kind by its location in OpenAPI 2.0, the
values that the field `In` of a `spec.Parameter` takes: `path`, `query`, `body`,
`header`, `formData`. -/
def openapiLocation (kind : Int) : String :=
  if kind = restful.PathParameterKind then "path"
  else if kind = restful.QueryParameterKind then "query"
  else if kind = restful.BodyParameterKind then "body"
  else if kind = restful.HeaderParameterKind then "header"
  else if kind = restful.FormParameterKind then "formData"
  else ""

/-- The collaborators with the OpenAPI 2.0 location table and the sample type naming. -/
def openapiCollaborators : Collaborators :=
  { asParamType := openapiLocation, keyFrom := sampleCollaborators.keyFrom }

/-! ## More sample inputs -/

/-- A body parameter whose payload type name ends in a `%`. -/
def malformedBodyParameter : restful.Parameter :=
  ⟨{ Name := "body", Description := "", DataType := "100%", DataFormat := "",
     Kind := restful.BodyParameterKind, Required := true, DefaultValue := "" }⟩

/-- A response whose payload is an anonymous struct with the field tag `%zz`. -/
def malformedResponse : restful.ResponseError :=
  { Code := 200, Message := "ok", Model := some ⟨"struct \x7b A int \"%zz\" \x7d"⟩ }

/-- A path parameter with a name, a description and a default value. -/
def pathParameter (name description defaultValue : String) : restful.Parameter :=
  ⟨{ Name := name, Description := description, DataType := "string", DataFormat := "",
     Kind := restful.PathParameterKind, Required := true, DefaultValue := defaultValue }⟩

/-- The dynamic type of the sample payload, `[]Sample`. -/
def sampleType : restful.ReflectType := ⟨"[]restfulspec.Sample"⟩

/-- The route of the end-to-end scenario, with its full path. -/
def scenarioRoute : restful.Route :=
  { sampleRoute "GET" "/tests/{v}/a/{b}/{c:[a-z]+}" "get the a b test" with
    ParameterDocs := [pathParameter "b" "value of b" "default-b",
      pathParameter "c" "with regex" "abc", queryParameter]
    ResponseErrors :=
      [(200, { Code := 200, Message := "list of a b tests", Model := some sampleType })] }

/-- The service of the end-to-end scenario: one path parameter `v`, one route. -/
def scenarioService : restful.WebService :=
  { Routes := [scenarioRoute],
    PathParameters := [pathParameter "v" "value of v" "default-v"] }

/-- A service whose only route has a method without a slot. -/
def traceService : restful.WebService :=
  { Routes := [sampleRoute "TRACE" "/a/" "trace"], PathParameters := [] }

/-- The service `mergeService` with its two routes in the other order. -/
def mergeServiceSwapped : restful.WebService :=
  { Routes := [sampleRoute "POST" "/tests/a/a/b" "post a b test",
      sampleRoute "GET" "/tests/a/a/b" "get a b test"],
    PathParameters := [] }

/-- The pair that decides which slot of the document a route writes: its normalised
path and its method. -/
def routeKey (r : restful.Route) : Option String × String :=
  (sanitizePath r.Path, r.Method)

/-! ## Splitting -/

theorem splitChars_ne_nil (sep : Char) (l : List Char) : splitChars sep l ≠ [] := by
  induction l with
  | nil => simp [splitChars]
  | cons c cs ih =>
    unfold splitChars
    split
    · simp
    · split <;> simp

theorem head?_splitChars (sep : Char) (l : List Char) :
    (splitChars sep l).head? = some (l.takeWhile (fun ch => ch ≠ sep)) := by
  induction l with
  | nil => simp [splitChars]
  | cons c cs ih =>
    unfold splitChars
    by_cases hc : c = sep
    · simp [hc]
    · simp only [hc, if_false]
      split
      · next h => exact absurd h (splitChars_ne_nil sep cs)
      · next h t heq =>
        rw [heq] at ih
        simp at ih
        simp [hc, ih]

theorem not_mem_of_mem_splitChars (sep : Char) (l s : List Char)
    (hs : s ∈ splitChars sep l) : sep ∉ s := by
  induction l generalizing s with
  | nil =>
    simp [splitChars] at hs
    simp [hs]
  | cons c cs ih =>
    unfold splitChars at hs
    by_cases hc : c = sep
    · simp only [hc, if_true, List.mem_cons] at hs
      rcases hs with rfl | hs
      · simp
      · exact ih s hs
    · simp only [hc, if_false] at hs
      split at hs
      · next h => exact absurd h (splitChars_ne_nil sep cs)
      · next h t heq =>
        rw [heq] at ih
        simp only [List.mem_cons] at hs
        rcases hs with rfl | hs
        · have := ih h (by simp)
          simp only [List.mem_cons, not_or]
          exact ⟨fun e => hc e.symm, this⟩
        · exact ih s (by simp [hs])

theorem splitChars_of_not_mem (sep : Char) (l : List Char) (h : sep ∉ l) :
    splitChars sep l = [l] := by
  induction l with
  | nil => simp [splitChars]
  | cons c cs ih =>
    simp only [List.mem_cons, not_or] at h
    unfold splitChars
    rw [if_neg (fun e => h.1 e.symm), ih h.2]

theorem splitChars_append_sep (sep : Char) (s rest : List Char) (h : sep ∉ s) :
    splitChars sep (s ++ sep :: rest) = s :: splitChars sep rest := by
  induction s with
  | nil => simp [splitChars]
  | cons c cs ih =>
    simp only [List.mem_cons, not_or] at h
    simp only [List.cons_append]
    conv_lhs => unfold splitChars
    rw [if_neg (fun e => h.1 e.symm), ih h.2]

/-! ## The loop of `sanitizePath` computes the specified normal form -/

theorem getElem?_zero_Split (sep : Char) (seg : List Char) :
    (Split (String.mk seg) sep)[0]? = some (String.mk (seg.takeWhile (fun ch => ch ≠ sep))) := by
  have h := head?_splitChars sep seg
  rw [List.head?_eq_getElem?] at h
  simp [Split, List.getElem?_map, h]

theorem sanitizePath.step_mk (acc : String) (seg : List Char) :
    sanitizePath.step acc (String.mk seg) =
      some (if seg = [] then acc else acc ++ String.mk ('/' :: rewriteChars seg)) := by
  unfold sanitizePath.step
  by_cases hnil : seg = []
  · subst hnil
    simp
  · have hne : ¬ (String.mk seg = "") := fun e => hnil (congrArg String.data e)
    rw [if_neg hne, if_neg hnil]
    by_cases hre : seg.head? = some '{' ∧ ':' ∈ seg
    · have hb : (HasPrefix (String.mk seg) '{' && Contains (String.mk seg) ':') = true := by
        simp [HasPrefix, Contains, hre.1, hre.2]
      rw [if_pos hb, getElem?_zero_Split]
      simp only [rewriteChars, if_pos hre]
      rfl
    · have hb : ¬ ((HasPrefix (String.mk seg) '{' && Contains (String.mk seg) ':') = true) := by
        simpa [HasPrefix, Contains] using hre
      rw [if_neg hb]
      simp only [rewriteChars, if_neg hre]
      rfl

theorem sanitizePath.foldlM_step (segs : List (List Char)) (acc : String) :
    (segs.map String.mk).foldlM sanitizePath.step acc =
      some (acc ++ String.mk (joinChars segs)) := by
  induction segs generalizing acc with
  | nil =>
    simp [joinChars]
  | cons seg rest ih =>
    rw [List.map_cons, List.foldlM_cons, sanitizePath.step_mk]
    simp only [Option.bind_eq_bind, Option.some_bind]
    rw [ih]
    congr 1
    apply String.ext
    by_cases hnil : seg = []
    · simp [hnil, joinChars]
    · simp [hnil, joinChars, String.data_append]

/-- The source function returns, and returns the normal form on characters. -/
theorem sanitizePath_eq (p : String) :
    sanitizePath p = some (String.mk (joinChars (splitChars '/' p.data))) := by
  unfold sanitizePath Split
  rw [sanitizePath.foldlM_step]
  congr 1

theorem data_join (l : List String) (acc : String) :
    (l.foldl (fun r s => r ++ s) acc).data = acc.data ++ (l.map String.data).flatten := by
  induction l generalizing acc with
  | nil => simp
  | cons s rest ih => simp [ih, String.data_append]

theorem Normalize.rewrite_mk (seg : List Char) :
    Normalize.rewrite (String.mk seg) = String.mk (rewriteChars seg) := by
  unfold Normalize.rewrite rewriteChars
  split <;> rfl

theorem Normalize.flatten_segments (segs : List (List Char)) :
    (List.map String.data
      (List.map (fun segment => "/" ++ Normalize.rewrite segment)
        (List.filter (fun segment => segment ≠ "") (List.map String.mk segs)))).flatten =
      joinChars segs := by
  induction segs with
  | nil => simp [joinChars]
  | cons seg rest ih =>
    by_cases hnil : seg = []
    · subst hnil
      have he : String.mk [] = "" := rfl
      simpa [joinChars, List.filter_cons, he] using ih
    · have hne : ¬ (String.mk seg = "") := fun e => hnil (congrArg String.data e)
      have hd : ("/" : String).data = ['/'] := rfl
      simp only [joinChars] at ih
      simp only [List.map_map, ne_eq, decide_not] at ih
      simp [joinChars, List.filter_cons, hne, hnil, Normalize.rewrite_mk, String.data_append,
        hd, ih]

/-- The normaliser in the words of the specification, on characters. -/
theorem Normalize_eq (p : String) :
    Normalize p = String.mk (joinChars (splitChars '/' p.data)) := by
  apply String.ext
  unfold Normalize Normalize.segments Split String.join
  rw [data_join, Normalize.flatten_segments]
  rfl

/-! ## The shape of a normalised path -/

theorem joinChars_eq_glue (pieces : List (List Char)) :
    joinChars pieces = glue (normalSegments pieces) := by
  simp [joinChars, glue, normalSegments, List.map_map, Function.comp_def]

theorem rewriteChars_ne_nil (seg : List Char) (h : seg ≠ []) : rewriteChars seg ≠ [] := by
  unfold rewriteChars
  split
  · simp
  · exact h

theorem slash_not_mem_rewriteChars (seg : List Char) (h : '/' ∉ seg) :
    '/' ∉ rewriteChars seg := by
  unfold rewriteChars
  split
  · intro hm
    rw [List.mem_append] at hm
    rcases hm with hm | hm
    · exact h ((List.takeWhile_sublist _).subset hm)
    · simp at hm
  · exact h

theorem rewriteChars_idem (seg : List Char) :
    rewriteChars (rewriteChars seg) = rewriteChars seg := by
  by_cases hre : seg.head? = some '{' ∧ ':' ∈ seg
  · have h1 : rewriteChars seg = seg.takeWhile (fun ch => ch ≠ ':') ++ ['}'] := by
      simp only [rewriteChars, if_pos hre]
    have h2 : ':' ∉ rewriteChars seg := by
      rw [h1]
      intro hm
      rw [List.mem_append] at hm
      rcases hm with hm | hm
      · have := List.mem_takeWhile_imp hm
        simp at this
      · simp at hm
    have key : ∀ r : List Char, ':' ∉ r → rewriteChars r = r := by
      intro r hr
      unfold rewriteChars
      rw [if_neg (fun hc => hr hc.2)]
    exact key _ h2
  · have h1 : rewriteChars seg = seg := by simp only [rewriteChars, if_neg hre]
    rw [h1, h1]

theorem normalSegments_clean (pieces : List (List Char))
    (hp : ∀ seg ∈ pieces, '/' ∉ seg) :
    ∀ seg ∈ normalSegments pieces, seg ≠ [] ∧ '/' ∉ seg ∧ rewriteChars seg = seg := by
  intro seg hseg
  simp only [normalSegments, List.mem_map, List.mem_filter] at hseg
  obtain ⟨s0, ⟨hmem, hne⟩, rfl⟩ := hseg
  have hne0 : s0 ≠ [] := by simpa using hne
  exact ⟨rewriteChars_ne_nil s0 hne0, slash_not_mem_rewriteChars s0 (hp s0 hmem),
    rewriteChars_idem s0⟩

theorem splitChars_append_glue (segs : List (List Char)) (s : List Char) (hs : '/' ∉ s)
    (h : ∀ seg ∈ segs, '/' ∉ seg) :
    splitChars '/' (s ++ glue segs) = s :: segs := by
  induction segs generalizing s with
  | nil => simpa [glue] using splitChars_of_not_mem '/' s hs
  | cons t rest ih =>
    have ht : '/' ∉ t := h t (by simp)
    have hrest : ∀ seg ∈ rest, '/' ∉ seg := fun seg hm => h seg (by simp [hm])
    have hg : glue (t :: rest) = '/' :: (t ++ glue rest) := by simp [glue]
    rw [hg, splitChars_append_sep '/' s _ hs, ih t ht hrest]

theorem normalSegments_splitChars_glue (segs : List (List Char))
    (h : ∀ seg ∈ segs, seg ≠ [] ∧ '/' ∉ seg ∧ rewriteChars seg = seg) :
    normalSegments (splitChars '/' (glue segs)) = segs := by
  have hsplit : splitChars '/' (glue segs) = [] :: segs := by
    have := splitChars_append_glue segs [] (by simp) (fun seg hm => (h seg hm).2.1)
    simpa using this
  rw [hsplit]
  have hfilter : List.filter (fun seg => decide (seg ≠ [])) segs = segs := by
    rw [List.filter_eq_self]
    intro seg hm
    simpa using (h seg hm).1
  simp only [normalSegments, List.filter_cons, ne_eq, not_true_eq_false, decide_False,
    Bool.false_eq_true, if_false]
  rw [hfilter]
  calc List.map rewriteChars segs = List.map id segs :=
        List.map_congr_left (fun seg hm => (h seg hm).2.2)
    _ = segs := List.map_id segs

/-- Normalising a normalised path changes nothing, on characters. -/
theorem joinChars_idem (l : List Char) :
    joinChars (splitChars '/' (joinChars (splitChars '/' l))) = joinChars (splitChars '/' l) := by
  have hclean := normalSegments_clean (splitChars '/' l)
    (fun seg hm => not_mem_of_mem_splitChars '/' l seg hm)
  rw [joinChars_eq_glue (splitChars '/' l), joinChars_eq_glue,
    normalSegments_splitChars_glue _ hclean]

theorem chain_of_slash_not_mem (a : Char) (t : List Char) (h : '/' ∉ t) :
    List.Chain NoDoubleSlash a t := by
  induction t generalizing a with
  | nil => exact List.Chain.nil
  | cons b rest ih =>
    simp only [List.mem_cons, not_or] at h
    exact List.Chain.cons (fun hab => h.1 hab.2.symm) (ih b h.2)

theorem getLast?_slash_cons (t : List Char) (hne : t ≠ []) (h : '/' ∉ t) :
    ∀ x ∈ ('/' :: t).getLast?, x ≠ '/' := by
  intro x hx
  cases t with
  | nil => exact absurd rfl hne
  | cons b rest =>
    rw [List.getLast?_cons_cons] at hx
    have hmem : x ∈ b :: rest := List.mem_of_mem_getLast? hx
    intro e
    exact h (e ▸ hmem)

/-- A glued list of non-empty, slash-free segments has no two neighbouring slashes,
does not end with a slash, and is empty or begins with a slash. -/
theorem glue_shape (segs : List (List Char)) (h : ∀ seg ∈ segs, seg ≠ [] ∧ '/' ∉ seg) :
    List.Chain' NoDoubleSlash (glue segs) ∧ (glue segs).getLast? ≠ some '/' ∧
      (glue segs = [] ∨ (glue segs).head? = some '/') := by
  induction segs with
  | nil => simp [glue]
  | cons t rest ih =>
    obtain ⟨hchain, hlast, _⟩ := ih (fun seg hm => h seg (by simp [hm]))
    obtain ⟨htne, ht⟩ := h t (by simp)
    have hg : glue (t :: rest) = ('/' :: t) ++ glue rest := by simp [glue]
    have hx := getLast?_slash_cons t htne ht
    rw [hg]
    refine ⟨?_, ?_, Or.inr (by simp)⟩
    · refine List.Chain'.append (chain_of_slash_not_mem '/' t ht) hchain ?_
      intro x hxm y _ hxy
      exact hx x hxm hxy.1
    · rw [List.getLast?_append]
      cases hrest : (glue rest).getLast? with
      | none =>
        intro e
        exact hx '/' (by simpa using e) rfl
      | some y =>
        intro e
        apply hlast
        rw [hrest]
        simpa using e

/-! ## Properties of the path normaliser -/

/-- C1. `sanitizePath` is idempotent: on every path string it returns a string, and
applied to that string it returns it again. -/
theorem sanitizePath_idempotent (p : String) :
    ∃ q, sanitizePath p = some q ∧ sanitizePath q = some q := by
  refine ⟨String.mk (joinChars (splitChars '/' p.data)), sanitizePath_eq p, ?_⟩
  rw [sanitizePath_eq]
  exact congrArg (fun l => some (String.mk l)) (joinChars_idem p.data)

/-- C2. `sanitizePath` returns the concatenation, over the non-empty segments of the
path between its `/` characters and in their order, of `/` followed by the rewritten
segment, where a segment that begins with an opening brace and contains `:` becomes
its text before the first `:` followed by a closing brace and every other segment is
kept; so the constrained variable of `/a/{c:[a-z]+}` and of
`/tests/{v}/a/{b}/{c:[a-z]+}` loses its constraint. -/
theorem sanitizePath_eq_Normalize :
    (∀ p : String, sanitizePath p = some (Normalize p)) ∧
      sanitizePath "/a/{c:[a-z]+}" = some "/a/{c}" ∧
      sanitizePath "/tests/{v}/a/{b}/{c:[a-z]+}" = some "/tests/{v}/a/{b}/{c}" := by
  refine ⟨fun p => ?_, by decide, by decide⟩
  rw [sanitizePath_eq, Normalize_eq]

/-- C10. Empty segments collapse: `sanitizePath` returns a string that contains no two
consecutive `/` characters, does not end with `/`, and is empty or begins with `/`;
so `//a//b/` becomes `/a/b`. -/
theorem sanitizePath_collapses :
    (∀ p : String, ∃ q, sanitizePath p = some q ∧
      ¬ (['/', '/'] <:+: q.data) ∧ q.data.getLast? ≠ some '/' ∧
      (q = "" ∨ q.data.head? = some '/')) ∧
      sanitizePath "//a//b/" = some "/a/b" := by
  refine ⟨fun p => ?_, by decide⟩
  refine ⟨String.mk (joinChars (splitChars '/' p.data)), sanitizePath_eq p, ?_⟩
  have hclean := normalSegments_clean (splitChars '/' p.data)
    (fun seg hm => not_mem_of_mem_splitChars '/' p.data seg hm)
  obtain ⟨hchain, hlast, hhead⟩ := glue_shape (normalSegments (splitChars '/' p.data))
    (fun seg hm => ⟨(hclean seg hm).1, (hclean seg hm).2.1⟩)
  rw [← joinChars_eq_glue] at hchain hlast hhead
  refine ⟨fun hinf => ?_, hlast, ?_⟩
  · have hc : List.Chain' NoDoubleSlash ['/', '/'] := hchain.infix hinf
    rw [List.chain'_cons] at hc
    exact hc.1 ⟨rfl, rfl⟩
  · rcases hhead with h0 | h1
    · exact Or.inl (String.ext h0)
    · exact Or.inr h1

/-! ## The loop of `BuildPaths` -/

theorem sanitizePath_eq_some_Normalize (p : String) : sanitizePath p = some (Normalize p) := by
  rw [sanitizePath_eq, Normalize_eq]

theorem BuildPaths.step_eq (c : Collaborators) (ws : restful.WebService) (p : spec.Paths)
    (each : restful.Route) : BuildPaths.step c ws p each = some (nextPaths c ws p each) := by
  unfold BuildPaths.step nextPaths
  rw [sanitizePath_eq_some_Normalize]
  cases h : p.Paths (Normalize each.Path) <;> simp [h]

theorem BuildPaths.foldlM_eq (c : Collaborators) (ws : restful.WebService)
    (routes : List restful.Route) (p : spec.Paths) :
    routes.foldlM (BuildPaths.step c ws) p = some (routes.foldl (nextPaths c ws) p) := by
  induction routes generalizing p with
  | nil => rfl
  | cons r rest ih =>
    rw [List.foldlM_cons, BuildPaths.step_eq]
    simpa using ih (nextPaths c ws p r)

/-- The source function returns: the document is the fold of `nextPaths`. -/
theorem BuildPaths_eq (c : Collaborators) (ws : restful.WebService) :
    BuildPaths c ws = some (ws.Routes.foldl (nextPaths c ws) {}) :=
  BuildPaths.foldlM_eq c ws ws.Routes {}

theorem buildPathItem_Get (c : Collaborators) (ws : restful.WebService) (r : restful.Route)
    (item : spec.PathItem) :
    (buildPathItem c ws r item).Get =
      if r.Method = "GET" then some (buildOperation c ws r) else item.Get := by
  unfold buildPathItem
  simp only []
  split_ifs <;> simp_all

theorem buildPathItem_Post (c : Collaborators) (ws : restful.WebService) (r : restful.Route)
    (item : spec.PathItem) :
    (buildPathItem c ws r item).Post =
      if r.Method = "POST" then some (buildOperation c ws r) else item.Post := by
  unfold buildPathItem
  simp only []
  split_ifs <;> simp_all

theorem buildPathItem_Put (c : Collaborators) (ws : restful.WebService) (r : restful.Route)
    (item : spec.PathItem) :
    (buildPathItem c ws r item).Put =
      if r.Method = "PUT" then some (buildOperation c ws r) else item.Put := by
  unfold buildPathItem
  simp only []
  split_ifs <;> simp_all

theorem buildPathItem_Delete (c : Collaborators) (ws : restful.WebService) (r : restful.Route)
    (item : spec.PathItem) :
    (buildPathItem c ws r item).Delete =
      if r.Method = "DELETE" then some (buildOperation c ws r) else item.Delete := by
  unfold buildPathItem
  simp only []
  split_ifs <;> simp_all

theorem buildPathItem_Patch (c : Collaborators) (ws : restful.WebService) (r : restful.Route)
    (item : spec.PathItem) :
    (buildPathItem c ws r item).Patch =
      if r.Method = "PATCH" then some (buildOperation c ws r) else item.Patch := by
  unfold buildPathItem
  simp only []
  split_ifs <;> simp_all

theorem buildPathItem_Options (c : Collaborators) (ws : restful.WebService) (r : restful.Route)
    (item : spec.PathItem) :
    (buildPathItem c ws r item).Options =
      if r.Method = "OPTIONS" then some (buildOperation c ws r) else item.Options := by
  unfold buildPathItem
  simp only []
  split_ifs <;> simp_all

theorem buildPathItem_Head (c : Collaborators) (ws : restful.WebService) (r : restful.Route)
    (item : spec.PathItem) :
    (buildPathItem c ws r item).Head =
      if r.Method = "HEAD" then some (buildOperation c ws r) else item.Head := by
  unfold buildPathItem
  simp only []
  split_ifs <;> simp_all

theorem slot_buildPathItem (c : Collaborators) (ws : restful.WebService) (r : restful.Route)
    (item : spec.PathItem) (m : String) :
    (buildPathItem c ws r item).slot m =
      if r.Method = m ∧ m ∈ recognisedMethods then some (buildOperation c ws r)
      else item.slot m := by
  simp only [spec.PathItem.slot, buildPathItem_Get, buildPathItem_Post, buildPathItem_Put,
    buildPathItem_Delete, buildPathItem_Patch, buildPathItem_Options, buildPathItem_Head,
    recognisedMethods, List.mem_cons, List.mem_singleton, List.not_mem_nil, or_false]
  by_cases h1 : m = "GET"
  · subst h1; simp
  by_cases h2 : m = "POST"
  · subst h2; simp
  by_cases h3 : m = "PUT"
  · subst h3; simp
  by_cases h4 : m = "DELETE"
  · subst h4; simp
  by_cases h5 : m = "PATCH"
  · subst h5; simp
  by_cases h6 : m = "OPTIONS"
  · subst h6; simp
  by_cases h7 : m = "HEAD"
  · subst h7; simp
  simp [h1, h2, h3, h4, h5, h6, h7]

theorem slot_empty (m : String) : ({} : spec.PathItem).slot m = none := by
  unfold spec.PathItem.slot
  split_ifs <;> rfl

theorem Paths_nextPaths (c : Collaborators) (ws : restful.WebService) (p : spec.Paths)
    (r : restful.Route) (k : String) :
    (nextPaths c ws p r).Paths k =
      if k = Normalize r.Path then
        some (buildPathItem c ws r ((p.Paths (Normalize r.Path)).getD {}))
      else p.Paths k := by
  by_cases hk : k = Normalize r.Path
  · subst hk
    simp [nextPaths]
  · simp [nextPaths, Function.update_noteq hk, hk]

theorem slotAt_nextPaths (c : Collaborators) (ws : restful.WebService) (p : spec.Paths)
    (r : restful.Route) (k m : String) :
    (nextPaths c ws p r).slotAt k m =
      if (Normalize r.Path = k ∧ r.Method = m) ∧ m ∈ recognisedMethods then
        some (buildOperation c ws r)
      else p.slotAt k m := by
  unfold spec.Paths.slotAt
  rw [Paths_nextPaths]
  by_cases hk : k = Normalize r.Path
  · subst hk
    rw [if_pos rfl, Option.some_bind, slot_buildPathItem]
    by_cases hm : r.Method = m ∧ m ∈ recognisedMethods
    · rw [if_pos hm, if_pos ⟨⟨rfl, hm.1⟩, hm.2⟩]
    · rw [if_neg hm, if_neg (fun h => hm ⟨h.1.2, h.2⟩)]
      cases hp : p.Paths (Normalize r.Path) with
      | none => simp [slot_empty]
      | some item => simp
  · rw [if_neg hk, if_neg (fun h => hk h.1.1.symm)]

theorem slotAt_foldl_of_no_match (c : Collaborators) (ws : restful.WebService)
    (routes : List restful.Route) (p : spec.Paths) (k m : String)
    (h : ∀ r ∈ routes, ¬ (Normalize r.Path = k ∧ r.Method = m)) :
    (routes.foldl (nextPaths c ws) p).slotAt k m = p.slotAt k m := by
  induction routes generalizing p with
  | nil => rfl
  | cons r rest ih =>
    rw [List.foldl_cons, ih _ (fun r' hr' => h r' (by simp [hr'])), slotAt_nextPaths,
      if_neg (fun hc => h r (by simp) hc.1)]

/-- The slot for a method under a path holds the operation of the last route with
that normalised path and that method. -/
theorem slotAt_foldl_last (c : Collaborators) (ws : restful.WebService)
    (before after : List restful.Route) (r : restful.Route) (p : spec.Paths) (k m : String)
    (hm : m ∈ recognisedMethods) (hr : Normalize r.Path = k ∧ r.Method = m)
    (h : ∀ r' ∈ after, ¬ (Normalize r'.Path = k ∧ r'.Method = m)) :
    ((before ++ r :: after).foldl (nextPaths c ws) p).slotAt k m =
      some (buildOperation c ws r) := by
  rw [List.foldl_append, List.foldl_cons, slotAt_foldl_of_no_match c ws after _ k m h,
    slotAt_nextPaths, if_pos ⟨hr, hm⟩]

theorem exists_last_of_exists {α : Type} (P : α → Prop) (l : List α) (h : ∃ x ∈ l, P x) :
    ∃ before x after, l = before ++ x :: after ∧ P x ∧ ∀ y ∈ after, ¬ P y := by
  induction l with
  | nil =>
    obtain ⟨x, hx, _⟩ := h
    simp at hx
  | cons a rest ih =>
    by_cases hrest : ∃ x ∈ rest, P x
    · obtain ⟨before, x, after, hl, hx, hafter⟩ := ih hrest
      exact ⟨a :: before, x, after, by simp [hl], hx, hafter⟩
    · obtain ⟨x, hx, hPx⟩ := h
      have hxa : x = a := by
        rcases List.mem_cons.mp hx with e | e
        · exact e
        · exact absurd ⟨x, e, hPx⟩ hrest
      subst hxa
      exact ⟨[], x, rest, rfl, hPx, fun y hy hPy => hrest ⟨y, hy, hPy⟩⟩

theorem slotAt_eq_some (d : spec.Paths) (k m : String) (op : spec.Operation)
    (h : d.slotAt k m = some op) : ∃ item, d.Paths k = some item ∧ item.slot m = some op := by
  unfold spec.Paths.slotAt at h
  cases hp : d.Paths k with
  | none => simp [hp] at h
  | some item => exact ⟨item, rfl, by simpa [hp] using h⟩

theorem sanitizePath_eq_some_iff (p k : String) : sanitizePath p = some k ↔ Normalize p = k := by
  rw [sanitizePath_eq_some_Normalize]
  exact Option.some_inj

theorem slot_GET (item : spec.PathItem) : item.slot "GET" = item.Get := by
  simp [spec.PathItem.slot]

theorem slot_POST (item : spec.PathItem) : item.slot "POST" = item.Post := by
  simp [spec.PathItem.slot]

theorem Paths_foldl_ne_none (c : Collaborators) (ws : restful.WebService)
    (routes : List restful.Route) (p : spec.Paths) (k : String) :
    (routes.foldl (nextPaths c ws) p).Paths k ≠ none ↔
      (∃ r ∈ routes, Normalize r.Path = k) ∨ p.Paths k ≠ none := by
  induction routes generalizing p with
  | nil => simp
  | cons r rest ih =>
    rw [List.foldl_cons, ih, Paths_nextPaths]
    by_cases hk : k = Normalize r.Path
    · subst hk
      simp
    · have hk2 : ¬ Normalize r.Path = k := fun e => hk e.symm
      simp [hk, hk2]

/-! ## Properties of the path builder -/

/-- C3. Last registered wins: for a recognised method and a normalised path that at
least one route has, the routes split into those before the last such route, that
route, and routes after it none of which has that pair, and in the document that
`BuildPaths` returns the slot of that method under that path holds the operation that
`buildOperation` builds from that last route. In particular, of two GET routes with the
same normalised path the Get slot holds the operation of the second. -/
theorem BuildPaths_last_registered_wins (c : Collaborators) (ws : restful.WebService)
    (k m : String) (hm : m ∈ recognisedMethods)
    (h : ∃ r0 ∈ ws.Routes, r0.Method = m ∧ sanitizePath r0.Path = some k) :
    (∃ before r after d item,
      ws.Routes = before ++ r :: after ∧
      (r.Method = m ∧ sanitizePath r.Path = some k) ∧
      (∀ r' ∈ after, ¬ (r'.Method = m ∧ sanitizePath r'.Path = some k)) ∧
      BuildPaths c ws = some d ∧ d.Paths k = some item ∧
      item.slot m = some (buildOperation c ws r)) ∧
    (∀ r1 r2, ws.Routes = [r1, r2] → m = "GET" → r1.Method = "GET" → r2.Method = "GET" →
      sanitizePath r1.Path = some k → sanitizePath r2.Path = some k →
      ∃ d item, BuildPaths c ws = some d ∧ d.Paths k = some item ∧
        item.Get = some (buildOperation c ws r2)) := by
  constructor
  · obtain ⟨before, r, after, hl, hr, hafter⟩ :=
      exists_last_of_exists (fun r => r.Method = m ∧ sanitizePath r.Path = some k) ws.Routes h
    have hslot := slotAt_foldl_last c ws before after r {} k m hm
      ⟨(sanitizePath_eq_some_iff _ _).mp hr.2, hr.1⟩
      (fun r' hr' hc => hafter r' hr' ⟨hc.2, (sanitizePath_eq_some_iff _ _).mpr hc.1⟩)
    rw [← hl] at hslot
    obtain ⟨item, hitem, hop⟩ := slotAt_eq_some _ k m _ hslot
    exact ⟨before, r, after, _, item, hl, hr, hafter, BuildPaths_eq c ws, hitem, hop⟩
  · intro r1 r2 hl _ _ h2 _ hp2
    have hslot := slotAt_foldl_last c ws [r1] [] r2 {} k "GET" (by decide)
      ⟨(sanitizePath_eq_some_iff _ _).mp hp2, h2⟩ (by simp)
    rw [List.singleton_append, ← hl] at hslot
    obtain ⟨item, hitem, hop⟩ := slotAt_eq_some _ k "GET" _ hslot
    exact ⟨_, item, BuildPaths_eq c ws, hitem, by rw [← slot_GET]; exact hop⟩

/-- Two GET routes, `/a/{b:[0-9]+}` then `/a/{b}/`: the Get slot under `/a/{b}` holds the
operation of the second. -/
theorem BuildPaths_last_registered_wins_witness :
    ∃ d item, BuildPaths sampleCollaborators overwriteService = some d ∧
      d.Paths "/a/{b}" = some item ∧
      item.Get = some (buildOperation sampleCollaborators overwriteService
        (sampleRoute "GET" "/a/{b}/" "second")) :=
  (BuildPaths_last_registered_wins sampleCollaborators overwriteService "/a/{b}" "GET"
    (by decide)
    ⟨sampleRoute "GET" "/a/{b}/" "second", by simp [overwriteService],
      by decide, by decide⟩).2
    (sampleRoute "GET" "/a/{b:[0-9]+}" "first") (sampleRoute "GET" "/a/{b}/" "second")
    rfl rfl rfl rfl (by decide) (by decide)

/-- C4. Path merging does not clobber: for a route with a recognised method,
`buildPathItem` assigns the slot of that method and leaves every other slot of the
existing path item as it was; and `BuildPaths` over a GET route and a POST route with
the same normalised path, in either order, returns a document with that path as its
only key, whose Get is the operation built from the GET route and whose Post is the
operation built from the POST route. -/
theorem buildPathItem_frame (c : Collaborators) (ws : restful.WebService)
    (r : restful.Route) (hm : r.Method ∈ recognisedMethods) :
    (∀ existingPathItem : spec.PathItem,
      (buildPathItem c ws r existingPathItem).slot r.Method = some (buildOperation c ws r) ∧
      ∀ m, m ≠ r.Method →
        (buildPathItem c ws r existingPathItem).slot m = existingPathItem.slot m) ∧
    (∀ g p k, g.Method = "GET" → p.Method = "POST" →
      sanitizePath g.Path = some k → sanitizePath p.Path = some k →
      (ws.Routes = [g, p] ∨ ws.Routes = [p, g]) →
      ∃ d item, BuildPaths c ws = some d ∧
        (∀ k', d.Paths k' ≠ none ↔ k' = k) ∧ d.Paths k = some item ∧
        item.Get = some (buildOperation c ws g) ∧
        item.Post = some (buildOperation c ws p)) := by
  constructor
  · intro item
    refine ⟨?_, fun m hne => ?_⟩
    · rw [slot_buildPathItem, if_pos ⟨rfl, hm⟩]
    · rw [slot_buildPathItem, if_neg (fun h => hne h.1.symm)]
  · intro g p k hg hp hgk hpk hroutes
    have hgk2 := (sanitizePath_eq_some_iff _ _).mp hgk
    have hpk2 := (sanitizePath_eq_some_iff _ _).mp hpk
    have hne : ¬ ("POST" = "GET") := by decide
    have hget : (ws.Routes.foldl (nextPaths c ws) {}).slotAt k "GET" =
        some (buildOperation c ws g) := by
      rcases hroutes with hl | hl
      · rw [hl]
        exact slotAt_foldl_last c ws [] [p] g {} k "GET" (by decide) ⟨hgk2, hg⟩
          (by simp [hp])
      · rw [hl]
        exact slotAt_foldl_last c ws [p] [] g {} k "GET" (by decide) ⟨hgk2, hg⟩ (by simp)
    have hpost : (ws.Routes.foldl (nextPaths c ws) {}).slotAt k "POST" =
        some (buildOperation c ws p) := by
      rcases hroutes with hl | hl
      · rw [hl]
        exact slotAt_foldl_last c ws [g] [] p {} k "POST" (by decide) ⟨hpk2, hp⟩ (by simp)
      · rw [hl]
        exact slotAt_foldl_last c ws [] [g] p {} k "POST" (by decide) ⟨hpk2, hp⟩
          (by simp [hg])
    obtain ⟨item, hitem, hopg⟩ := slotAt_eq_some _ k "GET" _ hget
    obtain ⟨item2, hitem2, hopp⟩ := slotAt_eq_some _ k "POST" _ hpost
    have hsame : item2 = item := Option.some_inj.mp (hitem2.symm.trans hitem)
    subst hsame
    refine ⟨_, item2, BuildPaths_eq c ws, fun k' => ?_, hitem, ?_, ?_⟩
    · rw [Paths_foldl_ne_none]
      rcases hroutes with hl | hl <;>
        · rw [hl]
          simp only [List.mem_cons, List.mem_singleton, List.not_mem_nil, or_false,
            exists_eq_or_imp, exists_eq_left, hgk2, hpk2, or_self, ne_eq, not_true_eq_false]
          exact eq_comm
    · rw [← slot_GET]; exact hopg
    · rw [← slot_POST]; exact hopp

/-- A GET route and a POST route on `/tests/a/a/b`: one path item, both slots filled. -/
theorem buildPathItem_frame_witness :
    ∃ d item, BuildPaths sampleCollaborators mergeService = some d ∧
      (∀ k', d.Paths k' ≠ none ↔ k' = "/tests/a/a/b") ∧ d.Paths "/tests/a/a/b" = some item ∧
      item.Get = some (buildOperation sampleCollaborators mergeService
        (sampleRoute "GET" "/tests/a/a/b" "get a b test")) ∧
      item.Post = some (buildOperation sampleCollaborators mergeService
        (sampleRoute "POST" "/tests/a/a/b" "post a b test")) :=
  (buildPathItem_frame sampleCollaborators mergeService
    (sampleRoute "GET" "/tests/a/a/b" "get a b test") (by decide)).2
    (sampleRoute "GET" "/tests/a/a/b" "get a b test")
    (sampleRoute "POST" "/tests/a/a/b" "post a b test") "/tests/a/a/b"
    rfl rfl (by decide) (by decide) (Or.inl rfl)

/-! ## Properties of the operation builder -/

theorem foldl_addParameter (c : Collaborators) (ps : List restful.Parameter)
    (o : spec.Operation) :
    ps.foldl (buildOperation.addParameter c) o =
      { o with Parameters := o.Parameters ++ ps.map (buildParameter c) } := by
  induction ps generalizing o with
  | nil => simp
  | cons a rest ih =>
    rw [List.foldl_cons, ih]
    simp [buildOperation.addParameter]

theorem buildOperation_Parameters (c : Collaborators) (ws : restful.WebService)
    (r : restful.Route) :
    (buildOperation c ws r).Parameters =
      ws.PathParameters.map (buildParameter c) ++ r.ParameterDocs.map (buildParameter c) := by
  unfold buildOperation
  simp only [foldl_addParameter]
  repeat' split
  all_goals simp [spec.NewOperation]

theorem buildOperation_Responses (c : Collaborators) (ws : restful.WebService)
    (r : restful.Route) :
    (buildOperation c ws r).Responses =
      some (r.ResponseErrors.foldl (buildOperation.addResponse c) {}) := by
  unfold buildOperation
  rfl

theorem buildOperation_Tags (c : Collaborators) (ws : restful.WebService)
    (r : restful.Route) :
    (buildOperation c ws r).Tags =
      match r.Metadata with
      | some metadata =>
        match metadata.lookup KeyOpenAPITags with
        | some (some (restful.Any.stringSlice tagList)) => tagList
        | _ => []
      | none => [] := by
  unfold buildOperation
  simp only [foldl_addParameter]
  repeat' split
  all_goals simp_all [spec.NewOperation]

theorem StatusCodeResponses_addResponse (c : Collaborators) (props : spec.Responses)
    (kv : Int × restful.ResponseError) (k : Int) :
    (buildOperation.addResponse c props kv).StatusCodeResponses k =
      if k = kv.1 then some (buildResponse c kv.2) else props.StatusCodeResponses k := by
  unfold buildOperation.addResponse
  by_cases hk : k = kv.1
  · subst hk
    rw [if_pos rfl]
    split_ifs <;> simp
  · rw [if_neg hk]
    split_ifs <;> simp [Function.update_noteq hk]

theorem Default_addResponse (c : Collaborators) (props : spec.Responses)
    (kv : Int × restful.ResponseError) :
    (buildOperation.addResponse c props kv).Default =
      if 200 = kv.1 then some (buildResponse c kv.2) else props.Default := by
  unfold buildOperation.addResponse
  split_ifs <;> rfl

theorem StatusCodeResponses_foldl_of_not_mem (c : Collaborators)
    (l : List (Int × restful.ResponseError)) (props : spec.Responses) (k : Int)
    (hk : k ∉ l.map Prod.fst) :
    (l.foldl (buildOperation.addResponse c) props).StatusCodeResponses k =
      props.StatusCodeResponses k := by
  induction l generalizing props with
  | nil => rfl
  | cons kv rest ih =>
    simp only [List.map_cons, List.mem_cons, not_or] at hk
    rw [List.foldl_cons, ih _ hk.2, StatusCodeResponses_addResponse, if_neg hk.1]

theorem StatusCodeResponses_foldl_of_mem (c : Collaborators)
    (l : List (Int × restful.ResponseError)) (props : spec.Responses) (k : Int)
    (e : restful.ResponseError) (hnodup : (l.map Prod.fst).Nodup) (hmem : (k, e) ∈ l) :
    (l.foldl (buildOperation.addResponse c) props).StatusCodeResponses k =
      some (buildResponse c e) := by
  induction l generalizing props with
  | nil => simp at hmem
  | cons kv rest ih =>
    simp only [List.map_cons, List.nodup_cons] at hnodup
    rw [List.foldl_cons]
    rcases List.mem_cons.mp hmem with heq | hrest
    · subst heq
      rw [StatusCodeResponses_foldl_of_not_mem c rest _ k hnodup.1,
        StatusCodeResponses_addResponse, if_pos rfl]
    · exact ih _ hnodup.2 hrest

theorem StatusCodeResponses_foldl_ne_none (c : Collaborators)
    (l : List (Int × restful.ResponseError)) (props : spec.Responses) (k : Int) :
    (l.foldl (buildOperation.addResponse c) props).StatusCodeResponses k ≠ none ↔
      k ∈ l.map Prod.fst ∨ props.StatusCodeResponses k ≠ none := by
  induction l generalizing props with
  | nil => simp
  | cons kv rest ih =>
    rw [List.foldl_cons, ih, StatusCodeResponses_addResponse]
    by_cases hk : k = kv.1
    · simp [hk]
    · simp [hk]

theorem Default_foldl_eq (c : Collaborators) (l : List (Int × restful.ResponseError))
    (props : spec.Responses) (h : props.Default = props.StatusCodeResponses 200) :
    (l.foldl (buildOperation.addResponse c) props).Default =
      (l.foldl (buildOperation.addResponse c) props).StatusCodeResponses 200 := by
  induction l generalizing props with
  | nil => exact h
  | cons kv rest ih =>
    rw [List.foldl_cons]
    apply ih
    rw [Default_addResponse, StatusCodeResponses_addResponse]
    by_cases hk : (200 : Int) = kv.1
    · rw [if_pos hk, if_pos hk]
    · rw [if_neg hk, if_neg hk, h]

theorem spec.Responses.eq_of_fields (p q : spec.Responses) (hd : p.Default = q.Default)
    (hs : p.StatusCodeResponses = q.StatusCodeResponses) : p = q := by
  cases p
  cases q
  simp_all

/-- The responses built from a map do not depend on the order of enumeration. -/
theorem foldl_addResponse_perm (c : Collaborators) (l l' : List (Int × restful.ResponseError))
    (hnodup : (l.map Prod.fst).Nodup) (hperm : l'.Perm l) :
    l'.foldl (buildOperation.addResponse c) {} = l.foldl (buildOperation.addResponse c) {} := by
  have hnodup' : (l'.map Prod.fst).Nodup := ((hperm.map Prod.fst).nodup_iff).mpr hnodup
  have hs : (l'.foldl (buildOperation.addResponse c) {}).StatusCodeResponses =
      (l.foldl (buildOperation.addResponse c) {}).StatusCodeResponses := by
    funext k
    by_cases hk : k ∈ l.map Prod.fst
    · obtain ⟨⟨k0, e⟩, hmem, hk0⟩ := List.mem_map.mp hk
      simp only at hk0
      subst hk0
      rw [StatusCodeResponses_foldl_of_mem c l _ k0 e hnodup hmem,
        StatusCodeResponses_foldl_of_mem c l' _ k0 e hnodup' (hperm.mem_iff.mpr hmem)]
    · have hk' : k ∉ l'.map Prod.fst := fun h => hk ((hperm.map Prod.fst).mem_iff.mp h)
      rw [StatusCodeResponses_foldl_of_not_mem c l _ k hk,
        StatusCodeResponses_foldl_of_not_mem c l' _ k hk']
  apply spec.Responses.eq_of_fields _ _ _ hs
  rw [Default_foldl_eq c l' {} rfl, Default_foldl_eq c l {} rfl, hs]

theorem buildOperation_congr_ResponseErrors (c : Collaborators) (ws : restful.WebService)
    (r : restful.Route) (l' : List (Int × restful.ResponseError))
    (h : l'.foldl (buildOperation.addResponse c) {} =
      r.ResponseErrors.foldl (buildOperation.addResponse c) {}) :
    buildOperation c ws { r with ResponseErrors := l' } = buildOperation c ws r := by
  unfold buildOperation
  simp only [h]

/-- C5. Parameter ordering: the parameters of the built operation are the built
service-level path parameters in declared order followed by the built route-level
parameters in declared order; so there are as many as both lists together, the
service-level ones come first and the route-level ones after them. -/
theorem buildOperation_parameter_order (c : Collaborators) (ws : restful.WebService)
    (r : restful.Route) :
    (buildOperation c ws r).Parameters =
      ws.PathParameters.map (buildParameter c) ++ r.ParameterDocs.map (buildParameter c) ∧
    (buildOperation c ws r).Parameters.length =
      ws.PathParameters.length + r.ParameterDocs.length ∧
    (∀ i : Fin ws.PathParameters.length,
      (buildOperation c ws r).Parameters[i.val]? =
        some (buildParameter c (ws.PathParameters.get i))) ∧
    (∀ j : Fin r.ParameterDocs.length,
      (buildOperation c ws r).Parameters[ws.PathParameters.length + j.val]? =
        some (buildParameter c (r.ParameterDocs.get j))) := by
  rw [buildOperation_Parameters]
  refine ⟨rfl, by simp, fun i => ?_, fun j => ?_⟩
  · rw [List.getElem?_append_left (by simp)]
    simp
  · rw [List.getElem?_append_right (by simp)]
    simp

/-- C7. Default-response aliasing: the built operation has a responses record, whose
Default response is present exactly when the route's response map has the status
code 200, and when present it is the response stored under 200 in the status-code
map. -/
theorem buildOperation_default_response (c : Collaborators) (ws : restful.WebService)
    (r : restful.Route) :
    ∃ props, (buildOperation c ws r).Responses = some props ∧
      (props.Default ≠ none ↔ ∃ e, ((200 : Int), e) ∈ r.ResponseErrors) ∧
      (∀ resp, props.Default = some resp → props.StatusCodeResponses 200 = some resp) := by
  refine ⟨_, buildOperation_Responses c ws r, ?_, ?_⟩
  · rw [Default_foldl_eq c r.ResponseErrors {} rfl, StatusCodeResponses_foldl_ne_none]
    simp
  · intro resp h
    rw [← Default_foldl_eq c r.ResponseErrors {} rfl]
    exact h

/-- C8. Response map: when the enumerated status codes are distinct, as the keys of a
map are, the status-code map of the built operation has exactly the route's status
codes, each with the response built from its specification, and the built operation
is the same for every order of enumeration. -/
theorem buildOperation_response_map (c : Collaborators) (ws : restful.WebService)
    (r : restful.Route) (hnodup : (r.ResponseErrors.map Prod.fst).Nodup) :
    ∃ props, (buildOperation c ws r).Responses = some props ∧
      (∀ k, props.StatusCodeResponses k ≠ none ↔ k ∈ r.ResponseErrors.map Prod.fst) ∧
      (∀ k e, (k, e) ∈ r.ResponseErrors →
        props.StatusCodeResponses k = some (buildResponse c e)) ∧
      (∀ l' : List (Int × restful.ResponseError), l'.Perm r.ResponseErrors →
        buildOperation c ws { r with ResponseErrors := l' } = buildOperation c ws r) := by
  refine ⟨_, buildOperation_Responses c ws r, fun k => ?_, fun k e hmem => ?_,
    fun l' hperm => ?_⟩
  · rw [StatusCodeResponses_foldl_ne_none]
    simp
  · exact StatusCodeResponses_foldl_of_mem c r.ResponseErrors {} k e hnodup hmem
  · exact buildOperation_congr_ResponseErrors c ws r l'
      (foldl_addResponse_perm c r.ResponseErrors l' hnodup hperm)

/-- The route with responses for 200 and 500 has both in its status-code map. -/
theorem buildOperation_response_map_witness :
    ∃ props, (buildOperation sampleCollaborators mergeService postRoute).Responses =
        some props ∧
      (∀ k, props.StatusCodeResponses k ≠ none ↔ k ∈ postRoute.ResponseErrors.map Prod.fst) ∧
      (∀ k e, (k, e) ∈ postRoute.ResponseErrors →
        props.StatusCodeResponses k = some (buildResponse sampleCollaborators e)) ∧
      (∀ l' : List (Int × restful.ResponseError), l'.Perm postRoute.ResponseErrors →
        buildOperation sampleCollaborators mergeService { postRoute with ResponseErrors := l' } =
          buildOperation sampleCollaborators mergeService postRoute) :=
  buildOperation_response_map sampleCollaborators mergeService postRoute (by decide)

/-- C9. Tag extraction: the tags of the built operation are the list of strings stored
in the route's metadata under `openapi.tags`; when the metadata is nil, has no such
key, or has a value of any other shape under it, the tags are empty. The operation is
built in every case. -/
theorem buildOperation_tags (c : Collaborators) (ws : restful.WebService)
    (r : restful.Route) :
    (∀ metadata tagList, r.Metadata = some metadata →
      metadata.lookup KeyOpenAPITags = some (some (restful.Any.stringSlice tagList)) →
      (buildOperation c ws r).Tags = tagList) ∧
    (r.Metadata = none → (buildOperation c ws r).Tags = []) ∧
    (∀ metadata, r.Metadata = some metadata → metadata.lookup KeyOpenAPITags = none →
      (buildOperation c ws r).Tags = []) ∧
    (∀ metadata v, r.Metadata = some metadata → metadata.lookup KeyOpenAPITags = some v →
      (∀ tagList, v ≠ some (restful.Any.stringSlice tagList)) →
      (buildOperation c ws r).Tags = []) ∧
    (buildOperation c ws taggedRoute).Tags = ["x", "y"] := by
  refine ⟨fun metadata tagList hm hl => ?_, fun hm => ?_, fun metadata hm hl => ?_,
    fun metadata v hm hl hv => ?_, ?_⟩
  · rw [buildOperation_Tags]
    simp [hm, hl]
  · rw [buildOperation_Tags]
    simp [hm]
  · rw [buildOperation_Tags]
    simp [hm, hl]
  · rw [buildOperation_Tags]
    simp only [hm, hl]
    split
    · next tl heq =>
      exact absurd (Option.some_inj.mp heq) (hv tl)
    · rfl
  · rw [buildOperation_Tags]
    rfl

/-- A list of strings under the key becomes the tags; a single string is ignored. -/
theorem buildOperation_tags_witness :
    (buildOperation sampleCollaborators mergeService taggedRoute).Tags = ["x", "y"] ∧
      (buildOperation sampleCollaborators mergeService mistaggedRoute).Tags = [] :=
  ⟨(buildOperation_tags sampleCollaborators mergeService taggedRoute).1
      [("openapi.tags", some (restful.Any.stringSlice ["x", "y"]))] ["x", "y"] rfl
      (by decide),
    (buildOperation_tags sampleCollaborators mergeService mistaggedRoute).2.2.2.1
      [("openapi.tags", some (restful.Any.other "string"))]
      (some (restful.Any.other "string")) rfl (by decide) (by simp)⟩

/-! ## Fixed points and empty results of the path normaliser -/

theorem glue_splitChars (l : List Char) : glue (splitChars '/' l) = '/' :: l := by
  induction l with
  | nil => simp [splitChars, glue]
  | cons c cs ih =>
    unfold splitChars
    by_cases hc : c = '/'
    · subst hc
      simp only [if_true]
      have hg : glue ([] :: splitChars '/' cs) = '/' :: glue (splitChars '/' cs) := by
        simp [glue]
      rw [hg, ih]
    · simp only [hc, if_false]
      split
      · next h0 => exact absurd h0 (splitChars_ne_nil '/' cs)
      · next hd t heq =>
        rw [heq] at ih
        simp only [glue, List.map_cons, List.flatten_cons, List.cons_append,
          List.cons.injEq, true_and] at ih ⊢
        rw [ih]

theorem rewriteChars_eq_self_iff (seg : List Char) :
    rewriteChars seg = seg ↔ ¬ (seg.head? = some '{' ∧ ':' ∈ seg) := by
  constructor
  · intro h hre
    have h1 : rewriteChars seg = seg.takeWhile (fun ch => ch ≠ ':') ++ ['}'] := by
      simp only [rewriteChars, if_pos hre]
    have h2 : ':' ∉ rewriteChars seg := by
      rw [h1]
      intro hm
      rw [List.mem_append] at hm
      rcases hm with hm | hm
      · have := List.mem_takeWhile_imp hm
        simp at this
      · simp at hm
    rw [h] at h2
    exact h2 hre.2
  · intro hre
    simp only [rewriteChars, if_neg hre]

theorem normalSegments_eq_self (segs : List (List Char))
    (h : ∀ seg ∈ segs, seg ≠ [] ∧ ¬ (seg.head? = some '{' ∧ ':' ∈ seg)) :
    normalSegments segs = segs := by
  have hfilter : List.filter (fun seg => decide (seg ≠ [])) segs = segs := by
    rw [List.filter_eq_self]
    intro seg hm
    simpa using (h seg hm).1
  unfold normalSegments
  rw [hfilter]
  calc List.map rewriteChars segs = List.map id segs :=
        List.map_congr_left (fun seg hm => (rewriteChars_eq_self_iff seg).mpr (h seg hm).2)
    _ = segs := List.map_id segs

theorem splitChars_slash_cons (rest : List Char) :
    splitChars '/' ('/' :: rest) = [] :: splitChars '/' rest := by
  conv_lhs => unfold splitChars
  simp

theorem normalSegments_nil_cons (segs : List (List Char)) :
    normalSegments ([] :: segs) = normalSegments segs := by
  simp [normalSegments, List.filter_cons]

/-- The normal form of a character list is the list itself exactly when the list is
empty, or is a slash followed by a rest whose pieces are all non-empty and none of
them both begins with an opening brace and contains a colon. -/
theorem joinChars_eq_self_iff (l : List Char) :
    joinChars (splitChars '/' l) = l ↔
      l = [] ∨ ∃ rest, l = '/' :: rest ∧
        ∀ seg ∈ splitChars '/' rest, seg ≠ [] ∧ ¬ (seg.head? = some '{' ∧ ':' ∈ seg) := by
  constructor
  · intro h
    have hclean := normalSegments_clean (splitChars '/' l)
      (fun seg hm => not_mem_of_mem_splitChars '/' l seg hm)
    rw [joinChars_eq_glue] at h
    cases hN : normalSegments (splitChars '/' l) with
    | nil =>
      rw [hN] at h
      exact Or.inl (by simpa [glue] using h.symm)
    | cons s t =>
      rw [hN] at h hclean
      right
      refine ⟨s ++ glue t, by simpa [glue] using h.symm, ?_⟩
      rw [splitChars_append_glue t s (hclean s (by simp)).2.1
        (fun seg hm => (hclean seg (by simp [hm])).2.1)]
      intro seg hm
      exact ⟨(hclean seg hm).1, (rewriteChars_eq_self_iff seg).mp (hclean seg hm).2.2⟩
  · rintro (h | ⟨rest, hl, hsegs⟩)
    · subst h
      simp [splitChars, joinChars]
    · subst hl
      rw [joinChars_eq_glue, splitChars_slash_cons, normalSegments_nil_cons,
        normalSegments_eq_self _ hsegs, glue_splitChars rest]

theorem forall_mem_splitChars_eq_nil (sep : Char) (l : List Char) :
    (∀ seg ∈ splitChars sep l, seg = []) ↔ ∀ ch ∈ l, ch = sep := by
  induction l with
  | nil => simp [splitChars]
  | cons c cs ih =>
    unfold splitChars
    by_cases hc : c = sep
    · simp [hc, ih]
    · simp only [hc, if_false]
      split
      · next h0 => exact absurd h0 (splitChars_ne_nil sep cs)
      · next hd t heq =>
        simp [hc]

theorem joinChars_eq_nil_iff (l : List Char) :
    joinChars (splitChars '/' l) = [] ↔ ∀ ch ∈ l, ch = '/' := by
  rw [← forall_mem_splitChars_eq_nil]
  simp only [joinChars, List.flatten_eq_nil_iff, List.mem_map, List.mem_filter]
  constructor
  · intro h seg hm
    by_contra hne
    have := h ('/' :: rewriteChars seg) ⟨seg, ⟨hm, by simpa using hne⟩, rfl⟩
    simp at this
  · rintro h x ⟨seg, ⟨hm, hne⟩, _⟩
    exact absurd (h seg hm) (by simpa using hne)

theorem HasPrefix_mk (seg : List Char) (c : Char) :
    HasPrefix (String.mk seg) c = true ↔ seg.head? = some c := by
  simp [HasPrefix]

theorem Contains_mk (seg : List Char) (c : Char) :
    Contains (String.mk seg) c = true ↔ c ∈ seg := by
  simp [Contains]

theorem mk_ne_empty (seg : List Char) : String.mk seg ≠ "" ↔ seg ≠ [] := by
  constructor
  · intro h e
    exact h (by rw [e])
  · intro h e
    exact h (congrArg String.data e)

theorem sanitizePath_eq_self_iff_data (p : String) :
    sanitizePath p = some p ↔ joinChars (splitChars '/' p.data) = p.data := by
  rw [sanitizePath_eq]
  constructor
  · intro h
    exact congrArg String.data (Option.some_inj.mp h)
  · intro h
    exact congrArg some (String.ext h)

/-- C11. Unconstrained paths pass through: `sanitizePath` returns its argument exactly
when the argument is empty, or is `/` followed by a rest none of whose pieces between
`/` characters is empty (so there is no `//` and no trailing `/`) and none of whose
pieces both begins with an opening brace and contains `:`. A non-empty segment
without `:` is appended unchanged by the loop, so `/a/{b}` is returned as it is. -/
theorem sanitizePath_fixed_iff :
    (∀ p : String, sanitizePath p = some p ↔
      p = "" ∨ ∃ rest : String, p = "/" ++ rest ∧
        ∀ seg ∈ Split rest '/',
          seg ≠ "" ∧ ¬ (HasPrefix seg '{' = true ∧ Contains seg ':' = true)) ∧
    (∀ acc seg : String, seg ≠ "" → Contains seg ':' = false →
      sanitizePath.step acc seg = some (acc ++ ("/" ++ seg))) ∧
    sanitizePath "/a/{b}" = some "/a/{b}" := by
  refine ⟨fun p => ?_, fun acc seg hne hc => ?_, by decide⟩
  · rw [sanitizePath_eq_self_iff_data, joinChars_eq_self_iff]
    constructor
    · rintro (h | ⟨rest, hl, hsegs⟩)
      · exact Or.inl (String.ext h)
      · refine Or.inr ⟨String.mk rest, String.ext (by simpa using hl), ?_⟩
        intro seg hm
        simp only [Split, List.mem_map] at hm
        obtain ⟨s, hs, rfl⟩ := hm
        rw [mk_ne_empty, HasPrefix_mk, Contains_mk]
        exact hsegs s hs
    · rintro (h | ⟨rest, hl, hsegs⟩)
      · exact Or.inl (congrArg String.data h)
      · refine Or.inr ⟨rest.data, by rw [hl]; rfl, ?_⟩
        intro s hs
        have := hsegs (String.mk s) (by simp only [Split, List.mem_map]; exact ⟨s, hs, rfl⟩)
        rw [mk_ne_empty, HasPrefix_mk, Contains_mk] at this
        exact this
  · unfold sanitizePath.step
    rw [if_neg hne, hc]
    simp

/-- C12. `sanitizePath` returns the empty string exactly when its argument is empty or
consists of `/` characters only; so the root path `/` gives the empty string, and an
argument with a character other than `/` gives a non-empty result that begins with
`/`. -/
theorem sanitizePath_eq_empty_iff :
    (∀ p : String, sanitizePath p = some "" ↔ ∀ ch ∈ p.data, ch = '/') ∧
    sanitizePath "/" = some "" ∧
    (∀ p : String, (∃ ch ∈ p.data, ch ≠ '/') →
      ∃ q, sanitizePath p = some q ∧ q ≠ "" ∧ q.data.head? = some '/') := by
  have hiff : ∀ p : String, sanitizePath p = some "" ↔ ∀ ch ∈ p.data, ch = '/' := by
    intro p
    rw [← joinChars_eq_nil_iff, sanitizePath_eq]
    constructor
    · intro h
      exact congrArg String.data (Option.some_inj.mp h)
    · intro h
      rw [h]
  refine ⟨hiff, by decide, fun p hp => ?_⟩
  refine ⟨String.mk (joinChars (splitChars '/' p.data)), sanitizePath_eq p, ?_⟩
  have hne : joinChars (splitChars '/' p.data) ≠ [] := by
    intro h
    obtain ⟨ch, hm, hch⟩ := hp
    exact hch ((joinChars_eq_nil_iff p.data).mp h ch hm)
  have hclean := normalSegments_clean (splitChars '/' p.data)
    (fun seg hm => not_mem_of_mem_splitChars '/' p.data seg hm)
  obtain ⟨_, _, hhead⟩ := glue_shape (normalSegments (splitChars '/' p.data))
    (fun seg hm => ⟨(hclean seg hm).1, (hclean seg hm).2.1⟩)
  rw [← joinChars_eq_glue] at hhead
  refine ⟨(mk_ne_empty _).mpr hne, ?_⟩
  rcases hhead with h0 | h1
  · exact absurd h0 hne
  · exact h1

/-- C17. `sanitizePath` never fails: the split of any string has at least one piece,
so the piece at index 0 of the split of a segment at `:` exists, every turn of the
loop yields a text, and a string is returned for every argument, malformed templates
included. -/
theorem sanitizePath_never_fails :
    (∀ (s : String) (sep : Char), 1 ≤ (Split s sep).length) ∧
    (∀ fragment : String, ∃ name, (Split fragment ':')[0]? = some name) ∧
    (∀ acc fragment : String, ∃ next, sanitizePath.step acc fragment = some next) ∧
    (∀ p : String, ∃ q, sanitizePath p = some q) ∧
    sanitizePath "/a/\x7bb" = some "/a/\x7bb" ∧ sanitizePath "\x7b:" = some "/\x7b\x7d" ∧
    sanitizePath ":" = some "/:" := by
  refine ⟨fun s sep => ?_, fun fragment => ⟨_, getElem?_zero_Split ':' fragment.data⟩,
    fun acc fragment => ⟨_, sanitizePath.step_mk acc fragment.data⟩,
    fun p => ⟨_, sanitizePath_eq p⟩, by decide, by decide, by decide⟩
  have hne := splitChars_ne_nil sep s.data
  simp only [Split, List.length_map]
  exact List.length_pos.mpr hne

/-! ## Documentation and unknown methods -/

theorem buildOperation_Description (c : Collaborators) (ws : restful.WebService)
    (r : restful.Route) : (buildOperation c ws r).Description = r.Doc := by
  unfold buildOperation
  simp only [foldl_addParameter]
  repeat' split
  all_goals simp [spec.NewOperation]

theorem buildOperation_Summary (c : Collaborators) (ws : restful.WebService)
    (r : restful.Route) :
    (buildOperation c ws r).Summary =
      String.mk (r.Doc.data.takeWhile (fun ch => ch ≠ '\n')) := by
  have hsplit := getElem?_zero_Split '\n' r.Doc.data
  have hdoc : String.mk r.Doc.data = r.Doc := rfl
  rw [hdoc] at hsplit
  unfold buildOperation
  simp only [foldl_addParameter]
  repeat' split
  all_goals simp_all [spec.NewOperation]

/-- C13. Summary and description: the description of the built operation is the
route's documentation text, and the summary is the part of that text before its first
newline: the whole text when it has no newline, empty when the text is empty. So the
summary has no newline and is a beginning of the description. -/
theorem buildOperation_summary_description (c : Collaborators) (ws : restful.WebService)
    (r : restful.Route) :
    (buildOperation c ws r).Description = r.Doc ∧
    (buildOperation c ws r).Summary =
      String.mk (r.Doc.data.takeWhile (fun ch => ch ≠ '\n')) ∧
    ('\n' ∉ r.Doc.data → (buildOperation c ws r).Summary = r.Doc) ∧
    (r.Doc = "" → (buildOperation c ws r).Summary = "") ∧
    '\n' ∉ (buildOperation c ws r).Summary.data ∧
    (buildOperation c ws r).Summary.data <+: (buildOperation c ws r).Description.data := by
  rw [buildOperation_Description, buildOperation_Summary]
  refine ⟨rfl, rfl, fun h => ?_, fun h => ?_, fun h => ?_, ?_⟩
  · apply String.ext
    simp only
    rw [List.takeWhile_eq_self_iff]
    intro ch hch
    have hne : ch ≠ '\n' := fun e => h (e ▸ hch)
    simpa using hne
  · rw [h]
    rfl
  · have := List.mem_takeWhile_imp h
    simp at this
  · exact List.takeWhile_prefix _

/-- A text of one line is its own summary; an empty text has an empty summary. -/
theorem buildOperation_summary_description_witness :
    (buildOperation sampleCollaborators mergeService
      (sampleRoute "GET" "/a" "first line")).Summary = "first line" ∧
    (buildOperation sampleCollaborators mergeService (sampleRoute "GET" "/a" "")).Summary = "" :=
  ⟨(buildOperation_summary_description sampleCollaborators mergeService
      (sampleRoute "GET" "/a" "first line")).2.2.1 (by decide),
    (buildOperation_summary_description sampleCollaborators mergeService
      (sampleRoute "GET" "/a" "")).2.2.2.1 rfl⟩

theorem buildPathItem_of_not_mem (c : Collaborators) (ws : restful.WebService)
    (r : restful.Route) (item : spec.PathItem) (h : r.Method ∉ recognisedMethods) :
    buildPathItem c ws r item = item := by
  simp only [recognisedMethods, List.mem_cons, List.mem_singleton, List.not_mem_nil,
    or_false, not_or] at h
  obtain ⟨h1, h2, h3, h4, h5, h6, h7⟩ := h
  simp [buildPathItem, h1, h2, h3, h4, h5, h6, h7]

/-- C15. Unknown method is dropped: for a route whose method is not exactly one of GET,
POST, PUT, DELETE, PATCH, OPTIONS, HEAD, `buildPathItem` returns the existing path item
unchanged. -/
theorem buildPathItem_unknown_method (c : Collaborators) (ws : restful.WebService)
    (r : restful.Route) (existingPathItem : spec.PathItem)
    (h : r.Method ∉ recognisedMethods) :
    buildPathItem c ws r existingPathItem = existingPathItem :=
  buildPathItem_of_not_mem c ws r existingPathItem h

/-- The methods `TRACE` and lower-case `get` leave an empty path item empty. -/
theorem buildPathItem_unknown_method_witness :
    buildPathItem sampleCollaborators traceService (sampleRoute "TRACE" "/a/" "trace") {} = {} ∧
    buildPathItem sampleCollaborators traceService (sampleRoute "get" "/a/" "lower") {} = {} :=
  ⟨buildPathItem_unknown_method sampleCollaborators traceService
      (sampleRoute "TRACE" "/a/" "trace") {} (by decide),
    buildPathItem_unknown_method sampleCollaborators traceService
      (sampleRoute "get" "/a/" "lower") {} (by decide)⟩

/-! ## The whole document -/

theorem buildParameter_Name (c : Collaborators) (p : restful.Parameter) :
    (buildParameter c p).Name = p.Data.Name := by
  unfold buildParameter
  simp only []
  split_ifs <;> rfl

/-- C18. End-to-end scenario: for a service with one path parameter `v` and a single
GET route with the full path `/tests/{v}/a/{b}/{c:[a-z]+}`, route parameters `b`, `c`,
`q` in that order and a response for 200 with a payload, `BuildPaths` returns a
document whose only key is `/tests/{v}/a/{b}/{c}`; the Get operation under it has
the parameters named v, b, c, q in that order, and its response for 200 refers to
`#/definitions/` followed by the name of the payload's type. -/
theorem BuildPaths_scenario (c : Collaborators) (ws : restful.WebService)
    (r : restful.Route) (pv pb pc pq : restful.Parameter) (e : restful.ResponseError)
    (st : restful.ReflectType)
    (hroutes : ws.Routes = [r]) (hparams : ws.PathParameters = [pv])
    (hmethod : r.Method = "GET") (hpath : r.Path = "/tests/{v}/a/{b}/{c:[a-z]+}")
    (hdocs : r.ParameterDocs = [pb, pc, pq])
    (hnames : pv.Data.Name = "v" ∧ pb.Data.Name = "b" ∧ pc.Data.Name = "c" ∧
      pq.Data.Name = "q")
    (hresp : r.ResponseErrors = [(200, e)]) (hmodel : e.Model = some st) :
    ∃ d item op props resp, BuildPaths c ws = some d ∧
      (∀ k, d.Paths k ≠ none ↔ k = "/tests/{v}/a/{b}/{c}") ∧
      d.Paths "/tests/{v}/a/{b}/{c}" = some item ∧ item.Get = some op ∧
      op.Parameters.map (fun p => p.Name) = ["v", "b", "c", "q"] ∧
      op.Responses = some props ∧ props.StatusCodeResponses 200 = some resp ∧
      resp.Schema = some { Ref := spec.MustCreateRef ("#/definitions/" ++ c.keyFrom st) } := by
  have hsan : sanitizePath r.Path = some "/tests/{v}/a/{b}/{c}" := by
    rw [hpath]
    decide
  have hnorm := (sanitizePath_eq_some_iff _ _).mp hsan
  have hslot := slotAt_foldl_last c ws [] [] r {} "/tests/{v}/a/{b}/{c}" "GET" (by decide)
    ⟨hnorm, hmethod⟩ (by simp)
  rw [List.nil_append, ← hroutes] at hslot
  obtain ⟨item, hitem, hop⟩ := slotAt_eq_some _ _ _ _ hslot
  refine ⟨_, item, buildOperation c ws r, _, buildResponse c e, BuildPaths_eq c ws,
    fun k => ?_, hitem, by rw [← slot_GET]; exact hop, ?_, buildOperation_Responses c ws r,
    ?_, ?_⟩
  · rw [Paths_foldl_ne_none, hroutes]
    simp [hnorm, eq_comm]
  · rw [buildOperation_Parameters, hparams, hdocs]
    simp [buildParameter_Name, hnames.1, hnames.2.1, hnames.2.2.1, hnames.2.2.2]
  · exact StatusCodeResponses_foldl_of_mem c r.ResponseErrors {} 200 e
      (by rw [hresp]; simp) (by rw [hresp]; simp)
  · simp [buildResponse, hmodel]

/-- The scenario itself, with the sample service. -/
theorem BuildPaths_scenario_witness :
    ∃ d item op props resp, BuildPaths sampleCollaborators scenarioService = some d ∧
      (∀ k, d.Paths k ≠ none ↔ k = "/tests/{v}/a/{b}/{c}") ∧
      d.Paths "/tests/{v}/a/{b}/{c}" = some item ∧ item.Get = some op ∧
      op.Parameters.map (fun p => p.Name) = ["v", "b", "c", "q"] ∧
      op.Responses = some props ∧ props.StatusCodeResponses 200 = some resp ∧
      resp.Schema = some
        { Ref := spec.MustCreateRef ("#/definitions/" ++ sampleCollaborators.keyFrom sampleType) } :=
  BuildPaths_scenario sampleCollaborators scenarioService scenarioRoute
    (pathParameter "v" "value of v" "default-v") (pathParameter "b" "value of b" "default-b")
    (pathParameter "c" "with regex" "abc") queryParameter
    { Code := 200, Message := "list of a b tests", Model := some sampleType } sampleType
    rfl rfl rfl rfl rfl ⟨rfl, rfl, rfl, rfl⟩ rfl rfl

theorem Paths_foldl_of_no_slot (c : Collaborators) (ws : restful.WebService)
    (routes : List restful.Route) (p : spec.Paths) (k : String)
    (h : ∀ r ∈ routes, Normalize r.Path = k → r.Method ∉ recognisedMethods)
    (hp : p.Paths k = none ∨ p.Paths k = some {}) :
    (routes.foldl (nextPaths c ws) p).Paths k = none ∨
      (routes.foldl (nextPaths c ws) p).Paths k = some {} := by
  induction routes generalizing p with
  | nil => exact hp
  | cons r rest ih =>
    rw [List.foldl_cons]
    apply ih _ (fun r' hr' => h r' (by simp [hr']))
    rw [Paths_nextPaths]
    by_cases hk : k = Normalize r.Path
    · right
      rw [if_pos hk, buildPathItem_of_not_mem c ws r _ (h r (by simp) hk.symm), ← hk]
      rcases hp with h0 | h1
      · rw [h0]; rfl
      · rw [h1]; rfl
    · rw [if_neg hk]
      exact hp

/-- C19. The keys of the document that `BuildPaths` returns are exactly the normalised
paths of the routes. A route whose method has no slot still creates its entry, which
is a path item without any operation when every route with that normalised path has
such a method. With no routes the document is empty. -/
theorem BuildPaths_key_set (c : Collaborators) (ws : restful.WebService) :
    ∃ d, BuildPaths c ws = some d ∧
      (∀ k, d.Paths k ≠ none ↔ ∃ r ∈ ws.Routes, sanitizePath r.Path = some k) ∧
      (∀ k, (∃ r ∈ ws.Routes, sanitizePath r.Path = some k) →
        (∀ r ∈ ws.Routes, sanitizePath r.Path = some k → r.Method ∉ recognisedMethods) →
        d.Paths k = some {}) ∧
      (ws.Routes = [] → ∀ k, d.Paths k = none) := by
  have hkeys : ∀ k, (ws.Routes.foldl (nextPaths c ws) {}).Paths k ≠ none ↔
      ∃ r ∈ ws.Routes, sanitizePath r.Path = some k := by
    intro k
    rw [Paths_foldl_ne_none]
    simp [sanitizePath_eq_some_iff]
  refine ⟨_, BuildPaths_eq c ws, hkeys, fun k hex hall => ?_, fun hnil k => ?_⟩
  · rcases Paths_foldl_of_no_slot c ws ws.Routes {} k
        (fun r hr hn => hall r hr ((sanitizePath_eq_some_iff _ _).mpr hn)) (Or.inl rfl)
      with h0 | h1
    · exact absurd h0 ((hkeys k).mpr hex)
    · exact h1
  · rw [hnil]
    rfl

/-- A single TRACE route on `/a/` gives the key `/a` with an empty path item. -/
theorem BuildPaths_key_set_witness :
    ∃ d, BuildPaths sampleCollaborators traceService = some d ∧ d.Paths "/a" = some {} := by
  obtain ⟨d, hd, _, hempty, _⟩ := BuildPaths_key_set sampleCollaborators traceService
  exact ⟨d, hd, hempty "/a" ⟨sampleRoute "TRACE" "/a/" "trace", by simp [traceService],
    by decide⟩ (by simp [traceService, sampleRoute, recognisedMethods])⟩

/-! ## The order of registration -/

theorem buildOperation_congr_ws (c : Collaborators) (ws ws' : restful.WebService)
    (r : restful.Route) (hp : ws'.PathParameters = ws.PathParameters) :
    buildOperation c ws' r = buildOperation c ws r := by
  unfold buildOperation
  rw [hp]

theorem nextPaths_congr_ws (c : Collaborators) (ws ws' : restful.WebService)
    (hp : ws'.PathParameters = ws.PathParameters) : nextPaths c ws' = nextPaths c ws := by
  funext p r
  unfold nextPaths buildPathItem
  rw [buildOperation_congr_ws c ws ws' r hp]

theorem spec.PathItem.eq_of_slots (a b : spec.PathItem) (h1 : a.Get = b.Get)
    (h2 : a.Put = b.Put) (h3 : a.Post = b.Post) (h4 : a.Delete = b.Delete)
    (h5 : a.Options = b.Options) (h6 : a.Head = b.Head) (h7 : a.Patch = b.Patch) : a = b := by
  cases a
  cases b
  simp_all

theorem buildPathItem_comm (c : Collaborators) (ws : restful.WebService)
    (r1 r2 : restful.Route) (item : spec.PathItem) (h : r1.Method ≠ r2.Method) :
    buildPathItem c ws r2 (buildPathItem c ws r1 item) =
      buildPathItem c ws r1 (buildPathItem c ws r2 item) := by
  apply spec.PathItem.eq_of_slots <;>
    simp only [buildPathItem_Get, buildPathItem_Put, buildPathItem_Post, buildPathItem_Delete,
      buildPathItem_Options, buildPathItem_Head, buildPathItem_Patch] <;>
    split_ifs with ha hb <;> first | rfl | exact absurd (hb.trans ha.symm) h

theorem spec.Paths.eq_of_Paths (a b : spec.Paths) (h : a.Paths = b.Paths) : a = b := by
  cases a
  cases b
  simp_all

theorem nextPaths_comm (c : Collaborators) (ws : restful.WebService) (p : spec.Paths)
    (r1 r2 : restful.Route)
    (h : ¬ (Normalize r1.Path = Normalize r2.Path ∧ r1.Method = r2.Method)) :
    nextPaths c ws (nextPaths c ws p r1) r2 = nextPaths c ws (nextPaths c ws p r2) r1 := by
  apply spec.Paths.eq_of_Paths
  funext k
  simp only [Paths_nextPaths]
  by_cases hN : Normalize r1.Path = Normalize r2.Path
  · have hm : r1.Method ≠ r2.Method := fun e => h ⟨hN, e⟩
    rw [hN]
    by_cases hk : k = Normalize r2.Path
    · simp only [hk, if_true, Option.getD_some]
      rw [buildPathItem_comm c ws r1 r2 _ hm]
    · simp only [hk, if_false]
  · have hN' : ¬ Normalize r2.Path = Normalize r1.Path := fun e => hN e.symm
    by_cases hk2 : k = Normalize r2.Path
    · subst hk2
      simp [hN, hN']
    · by_cases hk1 : k = Normalize r1.Path
      · subst hk1
        simp [hN, hN']
      · simp [hk1, hk2]

theorem routeKey_ne_iff (r1 r2 : restful.Route) :
    routeKey r1 ≠ routeKey r2 ↔
      ¬ (Normalize r1.Path = Normalize r2.Path ∧ r1.Method = r2.Method) := by
  simp [routeKey, sanitizePath_eq_some_Normalize]

/-- C20. Registration order matters only for collisions: a service with the same path
parameters whose routes are those of another with two adjacent routes swapped, the
two having different pairs of normalised path and method, gets the same document from
`BuildPaths`; and so does a service whose routes are any reordering of a route list
whose pairs are all distinct. -/
theorem BuildPaths_order (c : Collaborators) (ws ws' : restful.WebService)
    (hp : ws'.PathParameters = ws.PathParameters) :
    (∀ before r1 r2 after, ws.Routes = before ++ r1 :: r2 :: after →
      ws'.Routes = before ++ r2 :: r1 :: after → routeKey r1 ≠ routeKey r2 →
      BuildPaths c ws' = BuildPaths c ws) ∧
    (ws'.Routes.Perm ws.Routes → (ws.Routes.map routeKey).Nodup →
      BuildPaths c ws' = BuildPaths c ws) := by
  constructor
  · intro before r1 r2 after h h' hne
    rw [BuildPaths_eq, BuildPaths_eq, nextPaths_congr_ws c ws ws' hp, h, h']
    simp only [List.foldl_append, List.foldl_cons]
    rw [nextPaths_comm c ws _ r1 r2 ((routeKey_ne_iff r1 r2).mp hne)]
  · intro hperm hnodup
    rw [BuildPaths_eq, BuildPaths_eq, nextPaths_congr_ws c ws ws' hp]
    congr 1
    refine (List.Perm.foldl_eq' hperm.symm ?_ ({} : spec.Paths)).symm
    intro x hx y hy z
    by_cases hxy : routeKey x = routeKey y
    · have : x = y := List.inj_on_of_nodup_map hnodup hx hy hxy
      rw [this]
    · exact nextPaths_comm c ws z x y ((routeKey_ne_iff x y).mp hxy)

/-- The GET and POST routes of `mergeService` in either order give the same document. -/
theorem BuildPaths_order_witness :
    BuildPaths sampleCollaborators mergeServiceSwapped =
      BuildPaths sampleCollaborators mergeService :=
  (BuildPaths_order sampleCollaborators mergeService mergeServiceSwapped rfl).1 []
    (sampleRoute "GET" "/tests/a/a/b" "get a b test")
    (sampleRoute "POST" "/tests/a/a/b" "post a b test") [] rfl rfl (by decide)

/-! ## References that cannot be created, and the location of a parameter -/

theorem url.wellEscaped_cons_of_ne (c : Char) (rest : List Char) (h : c ≠ '%') :
    url.wellEscaped (c :: rest) = url.wellEscaped rest := by
  conv_lhs => unfold url.wellEscaped
  rw [if_neg h]

theorem url.wellEscaped_definitions (name : List Char) :
    url.wellEscaped ("/definitions/".data ++ name) = url.wellEscaped name := by
  have h : "/definitions/".data =
      ['/', 'd', 'e', 'f', 'i', 'n', 'i', 't', 'i', 'o', 'n', 's', '/'] := rfl
  rw [h]
  simp only [List.cons_append, List.nil_append]
  repeat rw [url.wellEscaped_cons_of_ne _ _ (by decide)]

/-- The reference to a definition is created exactly when every `%` of the name is
followed by two hexadecimal digits. -/
theorem spec.MustCreateRef.run_definitions (name : String) :
    spec.MustCreateRef.run ("#/definitions/" ++ name) =
      if url.wellEscaped name.data = true then some ⟨"#/definitions/" ++ name⟩ else none := by
  have hdata : ("#/definitions/" ++ name).data = '#' :: ("/definitions/".data ++ name.data) := by
    rw [String.data_append]
    rfl
  unfold spec.MustCreateRef.run
  rw [hdata]
  show (if url.wellEscaped ("/definitions/".data ++ name.data) = true then _ else _) = _
  rw [url.wellEscaped_definitions]

/-- The call of `buildParameter` panics for a body kind whose data type is badly
escaped, and otherwise returns the value `buildParameter`. -/
theorem buildParameter_run_eq (c : Collaborators) (r : restful.Parameter) :
    buildParameter.run c r =
      if r.Data.Kind = restful.BodyParameterKind ∧ url.wellEscaped r.Data.DataType.data = false
      then none else some (buildParameter c r) := by
  unfold buildParameter.run buildParameter
  simp only [spec.MustCreateRef.run_definitions, spec.MustCreateRef]
  by_cases hk : r.Data.Kind = restful.BodyParameterKind
  · by_cases hw : url.wellEscaped r.Data.DataType.data = true
    · simp [hk, hw]
    · simp [hk, hw]
  · simp [hk]

/-- Whatever `buildParameter.run` returns is the value `buildParameter`. -/
theorem buildParameter_run_eq_some (c : Collaborators) (r : restful.Parameter)
    (p : spec.Parameter) (h : buildParameter.run c r = some p) : p = buildParameter c r := by
  rw [buildParameter_run_eq] at h
  split_ifs at h
  exact (Option.some_inj.mp h).symm

/-- The call of `buildResponse` panics for a payload whose type name is badly escaped,
and otherwise returns the value `buildResponse`. -/
theorem buildResponse_run_eq (c : Collaborators) (e : restful.ResponseError) :
    buildResponse.run c e =
      if (∃ st, e.Model = some st ∧ url.wellEscaped (c.keyFrom st).data = false)
      then none else some (buildResponse c e) := by
  unfold buildResponse.run buildResponse
  simp only [spec.MustCreateRef.run_definitions, spec.MustCreateRef]
  cases hm : e.Model with
  | none => simp
  | some st =>
    by_cases hw : url.wellEscaped (c.keyFrom st).data = true
    · simp [hw]
    · simp [hw]

/-- Whatever `buildResponse.run` returns is the value `buildResponse`. -/
theorem buildResponse_run_eq_some (c : Collaborators) (e : restful.ResponseError)
    (resp : spec.Response) (h : buildResponse.run c e = some resp) :
    resp = buildResponse c e := by
  rw [buildResponse_run_eq] at h
  split_ifs at h
  exact (Option.some_inj.mp h).symm

/-- C6. Body parameter shape, with the panic of `spec.MustCreateRef`: for a body-kind specification whose data type
has every `%` followed by two hexadecimal digits, `buildParameter` returns a
parameter whose schema reference is the one that `spec.MustCreateRef` creates from
`#/definitions/` followed by the data type, with type, format and default unset; for
a body-kind specification with any other data type the call panics; for any other
kind it returns a parameter with no schema and with type, format and default taken
from the data type, data format and default value. -/
theorem buildParameter_run_shape (c : Collaborators) (r : restful.Parameter) :
    (r.Data.Kind = restful.BodyParameterKind → url.wellEscaped r.Data.DataType.data = true →
      ∃ p ref, buildParameter.run c r = some p ∧
        spec.MustCreateRef.run ("#/definitions/" ++ r.Data.DataType) = some ref ∧
        p.Schema = some { Ref := ref } ∧ p.Type_ = "" ∧ p.Format = "" ∧ p.Default = none) ∧
    (r.Data.Kind = restful.BodyParameterKind → url.wellEscaped r.Data.DataType.data = false →
      buildParameter.run c r = none) ∧
    (r.Data.Kind ≠ restful.BodyParameterKind →
      ∃ p, buildParameter.run c r = some p ∧ p.Schema = none ∧
        p.Type_ = r.Data.DataType ∧ p.Format = r.Data.DataFormat ∧
        p.Default = some r.Data.DefaultValue) := by
  refine ⟨fun hk hw => ?_, fun hk hw => ?_, fun hk => ?_⟩
  · have href := spec.MustCreateRef.run_definitions r.Data.DataType
    rw [if_pos hw] at href
    have hrun := buildParameter_run_eq c r
    rw [if_neg (fun h => by simp [hw] at h)] at hrun
    refine ⟨buildParameter c r, _, hrun, href, ?_, ?_, ?_, ?_⟩ <;>
      simp [buildParameter, hk, spec.MustCreateRef]
  · rw [buildParameter_run_eq, if_pos ⟨hk, hw⟩]
  · have hrun := buildParameter_run_eq c r
    rw [if_neg (fun h => hk h.1)] at hrun
    refine ⟨buildParameter c r, hrun, ?_, ?_, ?_, ?_⟩ <;> simp [buildParameter, hk]

/-- The body parameter for `restfulspec.Sample` gets its reference and nothing else;
the query parameter carries its type and default and no schema. -/
theorem buildParameter_run_shape_witness :
    (∃ p ref, buildParameter.run sampleCollaborators bodyParameter = some p ∧
        spec.MustCreateRef.run ("#/definitions/" ++ bodyParameter.Data.DataType) = some ref ∧
        p.Schema = some { Ref := ref } ∧ p.Type_ = "" ∧ p.Format = "" ∧ p.Default = none) ∧
    (∃ p, buildParameter.run sampleCollaborators queryParameter = some p ∧ p.Schema = none ∧
        p.Type_ = queryParameter.Data.DataType ∧ p.Format = queryParameter.Data.DataFormat ∧
        p.Default = some queryParameter.Data.DefaultValue) :=
  ⟨(buildParameter_run_shape sampleCollaborators bodyParameter).1 rfl (by decide),
    (buildParameter_run_shape sampleCollaborators queryParameter).2.2 (by decide)⟩

/-- C6. Not every body-kind specification gets a parameter: for the one with the data
type `100%` the call of `buildParameter` panics and returns none. -/
theorem buildParameter_run_malformed :
    malformedBodyParameter.Data.Kind = restful.BodyParameterKind ∧
      buildParameter.run sampleCollaborators malformedBodyParameter = none := by
  decide

/-- C14. Response builder, with the panic of `spec.MustCreateRef`: for a response specification whose payload type
gets a name in which every `%` is followed by two hexadecimal digits, `buildResponse`
returns a response with the message as its description and with the schema reference
that `spec.MustCreateRef` creates from `#/definitions/` followed by that name; for a
payload type with any other name the call panics; without a payload it returns a
response with the message as its description and no schema. -/
theorem buildResponse_run_shape (c : Collaborators) (e : restful.ResponseError) :
    (∀ st, e.Model = some st → url.wellEscaped (c.keyFrom st).data = true →
      ∃ resp ref, buildResponse.run c e = some resp ∧
        spec.MustCreateRef.run ("#/definitions/" ++ c.keyFrom st) = some ref ∧
        resp.Description = e.Message ∧ resp.Schema = some { Ref := ref }) ∧
    (∀ st, e.Model = some st → url.wellEscaped (c.keyFrom st).data = false →
      buildResponse.run c e = none) ∧
    (e.Model = none →
      ∃ resp, buildResponse.run c e = some resp ∧ resp.Description = e.Message ∧
        resp.Schema = none) := by
  refine ⟨fun st hm hw => ?_, fun st hm hw => ?_, fun hm => ?_⟩
  · have href := spec.MustCreateRef.run_definitions (c.keyFrom st)
    rw [if_pos hw] at href
    have hrun := buildResponse_run_eq c e
    rw [if_neg (fun h => by
      obtain ⟨st2, h1, h2⟩ := h
      rw [hm] at h1
      rw [← Option.some_inj.mp h1, hw] at h2
      exact absurd h2 (by decide))] at hrun
    refine ⟨buildResponse c e, _, hrun, href, ?_, ?_⟩ <;>
      simp [buildResponse, hm, spec.MustCreateRef]
  · rw [buildResponse_run_eq, if_pos ⟨st, hm, hw⟩]
  · have hrun := buildResponse_run_eq c e
    rw [if_neg (fun h => by
      obtain ⟨st2, h1, _⟩ := h
      rw [hm] at h1
      exact absurd h1 (by simp))] at hrun
    refine ⟨buildResponse c e, hrun, ?_, ?_⟩ <;> simp [buildResponse, hm]

/-- A response with the sample payload refers to its definition; one without a payload
has no schema. -/
theorem buildResponse_run_shape_witness :
    (∃ resp ref, buildResponse.run sampleCollaborators
          { Code := 200, Message := "ok", Model := some sampleType } = some resp ∧
        spec.MustCreateRef.run ("#/definitions/" ++ sampleCollaborators.keyFrom sampleType) =
          some ref ∧
        resp.Description = "ok" ∧ resp.Schema = some { Ref := ref }) ∧
    (∃ resp, buildResponse.run sampleCollaborators
          { Code := 204, Message := "no content", Model := none } = some resp ∧
        resp.Description = "no content" ∧ resp.Schema = none) :=
  ⟨(buildResponse_run_shape sampleCollaborators
      { Code := 200, Message := "ok", Model := some sampleType }).1 sampleType rfl (by decide),
    (buildResponse_run_shape sampleCollaborators
      { Code := 204, Message := "no content", Model := none }).2.2 rfl⟩

/-- C14. Not every response specification gets a response: for a payload whose type
name holds `%zz` the call of `buildResponse` panics and returns none. -/
theorem buildResponse_run_malformed :
    malformedResponse.Model ≠ none ∧
      buildResponse.run sampleCollaborators malformedResponse = none := by
  decide

/-- C16. The location of a built parameter is what `asParamType` gives for
its kind, for the body kind as for every other: the body kind is handled specially
in schema, type, format and default only. So a body parameter has the location
`body` exactly when `asParamType` gives `body` for the body kind. -/
theorem buildParameter_location (c : Collaborators) (r : restful.Parameter) :
    (buildParameter c r).In = c.asParamType r.Data.Kind ∧
    (∀ p, buildParameter.run c r = some p → p.In = c.asParamType r.Data.Kind) ∧
    (r.Data.Kind = restful.BodyParameterKind →
      ((buildParameter c r).In = "body" ↔
        c.asParamType restful.BodyParameterKind = "body")) := by
  have hIn : (buildParameter c r).In = c.asParamType r.Data.Kind := by
    unfold buildParameter
    simp only []
    split_ifs <;> rfl
  refine ⟨hIn, fun p hp => ?_, fun hk => ?_⟩
  · rw [buildParameter_run_eq_some c r p hp, hIn]
  · rw [hIn, hk]

/-- With a table that gives the body kind the text `2`, the body parameter does not
have the location `body`. -/
theorem buildParameter_location_witness :
    (buildParameter sampleCollaborators bodyParameter).In ≠ "body" := fun h =>
  absurd (((buildParameter_location sampleCollaborators bodyParameter).2.2 rfl).mp h)
    (by decide)

/-- C16. A body parameter can have the location `body`: with the OpenAPI 2.0 location
table the body parameter is built, and its location is `body`. -/
theorem buildParameter_location_body :
    bodyParameter.Data.Kind = restful.BodyParameterKind ∧
      (buildParameter.run openapiCollaborators bodyParameter).map (fun p => p.In) =
        some "body" ∧
      (buildParameter openapiCollaborators bodyParameter).In = "body" := by
  decide

end Restfulspec
